import Mathlib

/-!
# Verification of the Azure resource-graph builder

This file gives a shallow embedding of `Script/visualize_azure_graph.py`
(function `build_graph_from_csv`) and proves properties of it.

The embedding models:
* the data frame produced by `pd.read_csv(csv_path, dtype=str).fillna("")`
  (all cells are strings, missing cells are the empty string);
* the identity index (`id_to_name`, `id_to_row`) with Python dict semantics
  (last write wins, key keeps its first position);
* the `networkx.DiGraph` mutations `add_node` / `add_edge` used by the script
  (node attribute dictionaries are updated in place, duplicate edges collapse);
* `json.loads` as an executable JSON parser returning `Option Json`;
* the dynamic attribute/iteration behaviour of the exposure detector,
  including which Python exceptions are caught by the
  `except (json.JSONDecodeError, AttributeError)` handler and which
  (e.g. `TypeError` from iterating a non-iterable) escape and abort the build.
-/

set_option autoImplicit false

namespace AzureGraph

/-- A resource row: a finite map from column name to string cell value,
as an association list.  `pd.read_csv(..., dtype=str).fillna("")` guarantees
every cell is a string; a key that is absent reads as `""`. -/
abbrev Row := List (String × String)

/-- The data frame: ordered column names plus ordered rows. -/
structure Frame where
  columns : List String
  rows : List Row
deriving DecidableEq, Repr

/-- `row.get(k, d)` on an all-string row: the cell if present, else `d`. -/
def rowGetD (r : Row) (k d : String) : String :=
  (List.lookup k r).getD d

/-- Python dict insertion: replace the value at the first occurrence of the
key (keeping its position), else append the binding at the end. -/
def dinsert {α : Type} : List (String × α) → String → α → List (String × α)
  | [], k, v => [(k, v)]
  | (k', v') :: t, k, v =>
    if k' = k then (k, v) :: t else (k', v') :: dinsert t k v

/-- `needle` occurs as a contiguous sublist of `hay` (Python `needle in hay`
on strings, via their character lists). -/
def hasSub (hay needle : List Char) : Bool :=
  needle.isPrefixOf hay ||
    match hay with
    | [] => false
    | _ :: t => hasSub t needle

/-- Python `needle in hay` for strings. -/
def strContains (hay needle : String) : Bool :=
  hasSub hay.data needle.data

/-- Python `sep.join parts` (used with `" "` in the script). -/
def joinSep (sep : String) : List String → String
  | [] => ""
  | [x] => x
  | x :: y :: t => x ++ sep ++ joinSep sep (y :: t)

/-- Python `s.lower()` (ASCII, which covers every comparison the script
makes): lowercase each character. -/
def strLower (s : String) : String :=
  String.mk (s.data.map Char.toLower)

/-! ## JSON values and `json.loads` -/

/-- Parsed JSON values.  Number literals keep their lexeme: the script never
inspects numeric values, only their (non-string, non-dict, non-iterable)
dynamic type. -/
inductive Json where
  | null
  | bool (b : Bool)
  | num (lit : String)
  | str (s : String)
  | arr (items : List Json)
  | obj (fields : List (String × Json))

/-- Whitespace accepted between JSON tokens. -/
def isWsChar (c : Char) : Bool :=
  match c with
  | ' ' | '\t' | '\n' | '\r' => true
  | _ => false

def dropWs : List Char → List Char
  | [] => []
  | c :: t => if isWsChar c then dropWs t else c :: t

def isDigitCh (c : Char) : Bool :=
  48 ≤ c.toNat && c.toNat ≤ 57

/-- Split a leading run of decimal digits. -/
def digitSpan : List Char → List Char × List Char
  | [] => ([], [])
  | c :: t =>
    match isDigitCh c with
    | false => ([], c :: t)
    | true =>
      match digitSpan t with
      | (ds, r) => (c :: ds, r)

/-- The value of one hexadecimal digit (for `\u` escapes). -/
def hexDigit? (c : Char) : Option Nat :=
  let n := c.toNat
  if 48 ≤ n && n ≤ 57 then some (n - 48)
  else if 97 ≤ n && n ≤ 102 then some (n - 87)
  else if 65 ≤ n && n ≤ 70 then some (n - 55)
  else none

/-- Body of a JSON string after the opening quote: returns the decoded
characters and the remainder after the closing quote.  Raw control
characters are rejected, as by `json.loads` in strict mode. -/
def parseStrBody : List Char → Option (List Char × List Char)
  | [] => none
  | '"' :: rest => some ([], rest)
  | '\\' :: e :: rest =>
    match e with
    | '"' => (parseStrBody rest).map (fun p => ('"' :: p.1, p.2))
    | '\\' => (parseStrBody rest).map (fun p => ('\\' :: p.1, p.2))
    | '/' => (parseStrBody rest).map (fun p => ('/' :: p.1, p.2))
    | 'b' => (parseStrBody rest).map (fun p => ('\x08' :: p.1, p.2))
    | 'f' => (parseStrBody rest).map (fun p => ('\x0c' :: p.1, p.2))
    | 'n' => (parseStrBody rest).map (fun p => ('\n' :: p.1, p.2))
    | 'r' => (parseStrBody rest).map (fun p => ('\x0d' :: p.1, p.2))
    | 't' => (parseStrBody rest).map (fun p => ('\t' :: p.1, p.2))
    | 'u' =>
      match rest with
      | h1 :: h2 :: h3 :: h4 :: rest2 =>
        match hexDigit? h1, hexDigit? h2, hexDigit? h3, hexDigit? h4 with
        | some a, some b, some c, some d =>
          (parseStrBody rest2).map
            (fun p => (Char.ofNat (((a * 16 + b) * 16 + c) * 16 + d) :: p.1, p.2))
        | _, _, _, _ => none
      | _ => none
    | _ => none
  | c :: rest =>
    if c.toNat < 32 then none
    else (parseStrBody rest).map (fun p => (c :: p.1, p.2))

/-- Optional fraction part of a number (`.` followed by digits). -/
def parseFrac : List Char → Option (List Char × List Char)
  | '.' :: t =>
    match digitSpan t with
    | ([], _) => none
    | (ds, r) => some ('.' :: ds, r)
  | cs => some ([], cs)

/-- Optional exponent part of a number. -/
def parseExpPart : List Char → Option (List Char × List Char)
  | [] => some ([], [])
  | e :: t =>
    if e == 'e' || e == 'E' then
      let (sgn, t2) : List Char × List Char :=
        match t with
        | '+' :: u => (['+'], u)
        | '-' :: u => (['-'], u)
        | _ => ([], t)
      match digitSpan t2 with
      | ([], _) => none
      | (ds, r) => some (e :: (sgn ++ ds), r)
    else some ([], e :: t)

/-- A JSON number literal (strict: no leading zeros except a lone `0`). -/
def parseNumLit (cs : List Char) : Option (String × List Char) :=
  let (sgn, cs1) : List Char × List Char :=
    match cs with
    | '-' :: t => (['-'], t)
    | _ => ([], cs)
  match digitSpan cs1 with
  | ([], _) => none
  | (ds, r1) =>
    if ds.length > 1 && ds.head? = some '0' then none
    else
      match parseFrac r1 with
      | none => none
      | some (fr, r2) =>
        match parseExpPart r2 with
        | none => none
        | some (ex, r3) => some (String.mk (sgn ++ ds ++ fr ++ ex), r3)

mutual

/-- One JSON value starting at the given characters (whitespace already
skipped).  Fueled recursion; the fuel only bounds nesting/iteration and is
chosen generously by `parseJson`. -/
def parseVal : Nat → List Char → Option (Json × List Char)
  | 0, _ => none
  | fuel + 1, cs =>
    match cs with
    | [] => none
    | '{' :: rest => parseObjRest fuel (dropWs rest)
    | '[' :: rest => parseArrRest fuel (dropWs rest)
    | '"' :: rest =>
      match parseStrBody rest with
      | some (s, r) => some (.str (String.mk s), r)
      | none => none
    | 't' :: 'r' :: 'u' :: 'e' :: rest => some (.bool true, rest)
    | 'f' :: 'a' :: 'l' :: 's' :: 'e' :: rest => some (.bool false, rest)
    | 'n' :: 'u' :: 'l' :: 'l' :: rest => some (.null, rest)
    | 'N' :: 'a' :: 'N' :: rest => some (.num "NaN", rest)
    | 'I' :: 'n' :: 'f' :: 'i' :: 'n' :: 'i' :: 't' :: 'y' :: rest =>
      some (.num "Infinity", rest)
    | '-' :: 'I' :: 'n' :: 'f' :: 'i' :: 'n' :: 'i' :: 't' :: 'y' :: rest =>
      some (.num "-Infinity", rest)
    | c :: _ =>
      if c == '-' || isDigitCh c then
        match parseNumLit cs with
        | some (lit, r) => some (.num lit, r)
        | none => none
      else none

/-- After `{` and whitespace: either an immediate `}` or members. -/
def parseObjRest : Nat → List Char → Option (Json × List Char)
  | 0, _ => none
  | fuel + 1, cs =>
    match cs with
    | '}' :: rest => some (.obj [], rest)
    | _ => parseMembers fuel cs []

/-- Object members; duplicate keys follow Python dict semantics
(value replaced in place, first position kept). -/
def parseMembers : Nat → List Char → List (String × Json) →
    Option (Json × List Char)
  | 0, _, _ => none
  | fuel + 1, cs, acc =>
    match cs with
    | '"' :: rest =>
      match parseStrBody rest with
      | none => none
      | some (k, r1) =>
        match dropWs r1 with
        | ':' :: r2 =>
          match parseVal fuel (dropWs r2) with
          | none => none
          | some (v, r3) =>
            let acc2 := dinsert acc (String.mk k) v
            match dropWs r3 with
            | ',' :: r4 => parseMembers fuel (dropWs r4) acc2
            | '}' :: r4 => some (.obj acc2, r4)
            | _ => none
        | _ => none
    | _ => none

/-- After `[` and whitespace: either an immediate `]` or items. -/
def parseArrRest : Nat → List Char → Option (Json × List Char)
  | 0, _ => none
  | fuel + 1, cs =>
    match cs with
    | ']' :: rest => some (.arr [], rest)
    | _ => parseItems fuel cs []

/-- Array items. -/
def parseItems : Nat → List Char → List Json → Option (Json × List Char)
  | 0, _, _ => none
  | fuel + 1, cs, acc =>
    match parseVal fuel cs with
    | none => none
    | some (v, r1) =>
      match dropWs r1 with
      | ',' :: r2 => parseItems fuel (dropWs r2) (acc ++ [v])
      | ']' :: r2 => some (.arr (acc ++ [v]), r2)
      | _ => none

end

/-- `json.loads` on a cell value: a single JSON document with nothing but
whitespace around it.  (Python's `NaN`/`Infinity` extensions are accepted as
number literals.) -/
def parseJson (s : String) : Option Json :=
  match parseVal (3 * s.data.length + 8) (dropWs s.data) with
  | some (v, rest) => if dropWs rest = [] then some v else none
  | none => none

/-! ## Dynamic (Python) semantics used by the exposure detector -/

/-- The two exception classes that can be raised inside the per-row `try`
block after a successful parse: `AttributeError` (caught by the script's
handler) and `TypeError` (not caught, aborts the build). -/
inductive PyErr where
  | attrErr
  | typeErr
deriving DecidableEq, Repr

deriving instance DecidableEq for Except

/-- `x.get(k, dflt)`: dict lookup with default; any non-dict value has no
`get` attribute, raising `AttributeError`. -/
def pyGetAttr (j : Json) (k : String) (dflt : Json) : Except PyErr Json :=
  match j with
  | .obj fs => .ok ((List.lookup k fs).getD dflt)
  | _ => .error PyErr.attrErr

/-- `for x in j`: lists yield their items, strings their characters (as
one-character strings), dicts their keys; other values raise `TypeError`. -/
def pyIterate (j : Json) : Except PyErr (List Json) :=
  match j with
  | .arr xs => .ok xs
  | .str s => .ok (s.data.map fun c => Json.str (String.singleton c))
  | .obj fs => .ok (fs.map fun p => Json.str p.1)
  | _ => .error PyErr.typeErr

/-- `x.lower()`: only strings have a `lower` attribute. -/
def pyLower (j : Json) : Except PyErr String :=
  match j with
  | .str s => .ok (strLower s)
  | _ => .error PyErr.attrErr

/-! ## The exposure detector (script lines 93–130) -/

/-- `internet_sources = {'*', 'internet', '0.0.0.0/0'}`. -/
def internetSources : List String := ["*", "internet", "0.0.0.0/0"]

def nsgTypeName : String := "microsoft.network/networksecuritygroups"

def storageTypeName : String := "microsoft.storage/storageaccounts"

/-- The NSG rule loop (lines 109–115): for each rule,
`rule_props = rule.get('properties', {})` and the three guards are evaluated
left to right with Python `and` short-circuiting; the first fully matching
rule breaks with `is_exposed = True`. -/
def checkRules : List Json → Except PyErr Bool
  | [] => .ok false
  | rule :: rest =>
    match pyGetAttr rule "properties" (Json.obj []) with
    | .error e => .error e
    | .ok rp =>
      match pyGetAttr rp "direction" (Json.str "") with
      | .error e => .error e
      | .ok d =>
        match pyLower d with
        | .error e => .error e
        | .ok dl =>
          if dl = "inbound" then
            match pyGetAttr rp "access" (Json.str "") with
            | .error e => .error e
            | .ok a =>
              match pyLower a with
              | .error e => .error e
              | .ok al =>
                if al = "allow" then
                  match pyGetAttr rp "sourceAddressPrefix" (Json.str "") with
                  | .error e => .error e
                  | .ok sp =>
                    match pyLower sp with
                    | .error e => .error e
                    | .ok spl =>
                      if spl ∈ internetSources then .ok true
                      else checkRules rest
                else checkRules rest
          else checkRules rest

/-- Lines 107–115: `rules = properties.get('securityRules', [])` followed by
`for rule in rules`. -/
def nsgCheck (properties : Json) : Except PyErr Bool :=
  match pyGetAttr properties "securityRules" (Json.arr []) with
  | .error e => .error e
  | .ok rules =>
    match pyIterate rules with
    | .error e => .error e
    | .ok items => checkRules items

/-- Lines 118–121: `network_acls = properties.get('networkAcls', {})`;
exposed when `network_acls.get('defaultAction', '').lower() == 'allow'`. -/
def storageCheck (properties : Json) : Except PyErr Bool :=
  match pyGetAttr properties "networkAcls" (Json.obj []) with
  | .error e => .error e
  | .ok acls =>
    match pyGetAttr acls "defaultAction" (Json.str "") with
    | .error e => .error e
    | .ok da =>
      match pyLower da with
      | .error e => .error e
      | .ok dal => .ok (dal = "allow")

/-- The row-level effect of the handler
`except (json.JSONDecodeError, AttributeError): continue`: an
`AttributeError` inside the `try` block leaves the row unexposed, while a
`TypeError` propagates. -/
def catchAttrErr (res : Except PyErr Bool) : Except PyErr Bool :=
  match res with
  | .ok b => .ok b
  | .error PyErr.attrErr => .ok false
  | .error PyErr.typeErr => .error PyErr.typeErr

/-- The per-row `try` block of lines 104–124: parse `properties` (a parse
failure is caught, leaving the row unexposed) and run the type-specific
check under the exception handler. -/
def rowExposed (row : Row) : Except PyErr Bool :=
  match parseJson (rowGetD row "properties" "\x7b\x7d") with
  | none => .ok false
  | some properties =>
    if strLower (rowGetD row "type" "") = nsgTypeName then
      catchAttrErr (nsgCheck properties)
    else if strLower (rowGetD row "type" "") = storageTypeName then
      catchAttrErr (storageCheck properties)
    else .ok false

/-! ## The graph (`networkx.DiGraph`) -/

/-- Node attribute values: CSV-derived attributes are strings; the synthetic
Internet node also carries the integer size hint `size=40`. -/
inductive AVal where
  | s (v : String)
  | n (v : Int)
deriving DecidableEq, Repr

/-- A node attribute dictionary. -/
abbrev Attrs := List (String × AVal)

/-- `dict.update` semantics for node attributes. -/
def mergeAttrs (old new : Attrs) : Attrs :=
  new.foldl (fun acc kv => dinsert acc kv.1 kv.2) old

/-- `G.add_node(n, **a)` on the node list: update the attribute dict of an
existing node in place, else append a fresh node whose attribute dict is
built from `a`. -/
def addNodeList : List (String × Attrs) → String → Attrs → List (String × Attrs)
  | [], nm, a => [(nm, mergeAttrs [] a)]
  | (m, b) :: t, nm, a =>
    if m = nm then (m, mergeAttrs b a) :: t
    else (m, b) :: addNodeList t nm a

/-- A directed graph: node list (with attribute dicts, keys unique by
construction) and edge list (duplicates collapse, as in `networkx`). -/
structure Graph where
  nodes : List (String × Attrs)
  edges : List (String × String)
deriving DecidableEq, Repr

def Graph.addNode (g : Graph) (nm : String) (a : Attrs) : Graph :=
  { g with nodes := addNodeList g.nodes nm a }

/-- `G.add_edge(u, v)`: missing endpoints are inserted as bare nodes;
an already-present edge is left alone. -/
def Graph.addEdge (g : Graph) (u v : String) : Graph :=
  { nodes := addNodeList (addNodeList g.nodes u []) v [],
    edges := if (u, v) ∈ g.edges then g.edges else g.edges ++ [(u, v)] }

/-- Attribute dict of a node, if the node exists. -/
def Graph.lookupNode (g : Graph) (nm : String) : Option Attrs :=
  List.lookup nm g.nodes

/-- Node keys in insertion order. -/
def Graph.keys (g : Graph) : List String :=
  g.nodes.map Prod.fst

/-! ## The build pipeline (`build_graph_from_csv`) -/

/-- Lines 44–45, generic over the stored value: Python dict comprehension
over the rows, keeping rows with a non-empty `id` (last write wins). -/
def idFold {α : Type} (f : Row → α) (rows : List Row)
    (d : List (String × α)) : List (String × α) :=
  rows.foldl
    (fun d r =>
      let i := rowGetD r "id" ""
      if i = "" then d else dinsert d i (f r))
    d

/-- Line 44: `id_to_name = {row['id']: row['name'] for ...}`. -/
def idToName (df : Frame) : List (String × String) :=
  idFold (fun r => rowGetD r "name" "") df.rows []

/-- Line 45: `id_to_row = {row['id']: row for ...}` (computed by the script
but never read afterwards). -/
def idToRow (df : Frame) : List (String × Row) :=
  idFold (fun r => r) df.rows []

/-- Line 68: `candidate_ids = list(id_to_name.keys())`. -/
def candidateIds (df : Frame) : List String :=
  (idToName df).map Prod.fst

/-- Lines 71–74: the recognized reference-bearing columns, falling back to
all columns (every column is object-dtype after `dtype=str`). -/
def searchColumnsOf (cols : List String) : List String :=
  let sc := cols.filter
    (fun c =>
      c ∈ ["properties", "tags", "identity", "managedBy", "resourceGroup", "type"])
  if sc = [] then cols else sc

/-- Lines 59–63: the non-empty fields of a row, as string attributes, in
column order. -/
def rowAttrs (cols : List String) (r : Row) : Attrs :=
  cols.filterMap
    (fun c =>
      let v := rowGetD r c ""
      if v = "" then none else some (c, AVal.s v))

/-- Lines 51–64: one iteration of the node-creation loop. -/
def nodeStep (cols : List String) (g : Graph) (r : Row) : Graph :=
  let nm := rowGetD r "name" ""
  if nm = "" then g else g.addNode nm (rowAttrs cols r)

/-- Line 81: the haystack for one row. -/
def hayOf (scols : List String) (r : Row) : String :=
  joinSep " " (scols.map fun c => rowGetD r c "")

/-- Lines 83–91, as the list of (source, target) pairs the inner loop acts
on for one row: candidate ids other than the row's own id that occur in the
haystack and resolve to a non-empty target name. -/
def rowRefPairs (ids : List (String × String)) (cands : List String)
    (scols : List String) (r : Row) : List (String × String) :=
  let src := rowGetD r "name" ""
  if src = "" then []
  else
    cands.filterMap fun cid =>
      if cid = rowGetD r "id" "" then none
      else if strContains (hayOf scols r) cid then
        match List.lookup cid ids with
        | some tgt => if tgt = "" then none else some (src, tgt)
        | none => none
      else none

/-- Lines 89–91: `G.add_node(tgt_name)` then `G.add_edge(src_name, tgt_name)`. -/
def applyRefPair (g : Graph) (p : String × String) : Graph :=
  (g.addNode p.2 []).addEdge p.1 p.2

/-- Lines 76–91: one iteration of the reference-inference loop. -/
def refStep (ids : List (String × String)) (cands : List String)
    (scols : List String) (g : Graph) (r : Row) : Graph :=
  (rowRefPairs ids cands scols r).foldl applyRefPair g

/-- Line 128: attributes of the synthetic Internet node. -/
def internetAttrs : Attrs :=
  [("type", AVal.s "Internet"), ("group", AVal.s "Internet"), ("size", AVal.n 40)]

/-- Lines 98–130, one row: on exposure, lazily create the Internet node
(guarded by the `has_internet_node` flag) and add the Internet edge; an
uncaught exception aborts. -/
def expStep (acc : Graph × Bool) (row : Row) : Except PyErr (Graph × Bool) :=
  match rowExposed row with
  | .error e => .error e
  | .ok false => .ok acc
  | .ok true =>
    let g := if acc.2 then acc.1 else acc.1.addNode "Internet" internetAttrs
    .ok (g.addEdge "Internet" (rowGetD row "name" ""), true)

/-- The exposure loop over all rows. -/
def expFold (acc : Graph × Bool) : List Row → Except PyErr (Graph × Bool)
  | [] => .ok acc
  | r :: rs =>
    match expStep acc r with
    | .ok acc2 => expFold acc2 rs
    | .error e => .error e

/-- The graph after the node-creation loop (lines 48–64). -/
def nodesGraph (df : Frame) : Graph :=
  df.rows.foldl (nodeStep df.columns) ⟨[], []⟩

/-- The graph after the reference-inference loop (lines 66–91). -/
def refGraph (df : Frame) : Graph :=
  df.rows.foldl
    (refStep (idToName df) (candidateIds df) (searchColumnsOf df.columns))
    (nodesGraph df)

/-- How a build run ends when it does not return a graph:
the `SystemExit` of line 41, or an exception escaping the exposure loop. -/
inductive BuildErr where
  | malformedInput
  | typeErr
deriving DecidableEq, Repr

/-- `build_graph_from_csv` (lines 36–132). -/
def build_graph_from_csv (df : Frame) : Except BuildErr Graph :=
  if "id" ∈ df.columns ∧ "name" ∈ df.columns then
    match expFold (refGraph df, false) df.rows with
    | .ok (g, _) => .ok g
    | .error _ => .error BuildErr.typeErr
  else .error BuildErr.malformedInput

/-! ## Declarative (spec-side) conditions -/

/-- Member of a JSON object, if the value is an object at all. -/
def jMember (j : Json) (k : String) : Option Json :=
  match j with
  | .obj fs => List.lookup k fs
  | _ => none

/-- The string value of an optional JSON field, reading anything that is not
a string as the empty default (the shape the spec's rules presuppose). -/
def jStrD (o : Option Json) : String :=
  match o with
  | some (Json.str s) => s
  | _ => ""

/-- Spec-side reading of a rule's `properties` object: inbound direction,
allowed access, and a source address prefix in the Internet-like set, all
case-insensitively (an absent or non-object field reads as `""`). -/
def ruleOpensProps (rp : Json) : Bool :=
  decide (strLower (jStrD (jMember rp "direction")) = "inbound") &&
  decide (strLower (jStrD (jMember rp "access")) = "allow") &&
  decide (strLower (jStrD (jMember rp "sourceAddressPrefix")) ∈ internetSources)

/-- Spec-side reading of one security-rule entry, with the rule fields under
the entry's `properties` sub-object (absent sub-object reads as empty). -/
def ruleOpensInternet (rule : Json) : Bool :=
  ruleOpensProps ((jMember rule "properties").getD (Json.obj []))

/-- Well-formedness of the inspected fields: present values are strings. -/
def strOrAbsent (o : Option Json) : Bool :=
  match o with
  | none => true
  | some (Json.str _) => true
  | some _ => false

/-- Well-formedness of a rule's `properties`: absent, or an object whose
three inspected fields are strings when present. -/
def propsWF (o : Option Json) : Bool :=
  match o with
  | none => true
  | some (Json.obj rp) =>
    strOrAbsent (List.lookup "direction" rp) &&
    strOrAbsent (List.lookup "access" rp) &&
    strOrAbsent (List.lookup "sourceAddressPrefix" rp)
  | some _ => false

/-- Well-formedness of a rule entry under which the script's dynamic checks
cannot raise: the entry is an object and its `properties` satisfy
`propsWF`. -/
def ruleWF (rule : Json) : Bool :=
  match rule with
  | Json.obj fs => propsWF (List.lookup "properties" fs)
  | _ => false

/-- Spec-side storage-account exposure on a parsed `properties` value:
`networkAcls.defaultAction` is a string equal (lowercased) to `"allow"`. -/
def storageOpen (p : Json) : Bool :=
  match jMember p "networkAcls" with
  | none => false
  | some acls =>
    match jMember acls "defaultAction" with
    | some (Json.str s) => decide (strLower s = "allow")
    | _ => false

/-- Spec-side storage-account exposure of a row: its `properties` parses and
the parse satisfies `storageOpen`. -/
def storageAllowsInternet (row : Row) : Bool :=
  match parseJson (rowGetD row "properties" "\x7b\x7d") with
  | none => false
  | some p => storageOpen p

/-- Folding the non-empty fields of a list of rows into one attribute dict,
later rows overwriting earlier values key-wise. -/
def attrFold (cols : List String) (init : Attrs) (rs : List Row) : Attrs :=
  rs.foldl (fun a r => mergeAttrs a (rowAttrs cols r)) init

/-- The attribute dict the build gives the node named `nm`: the merge of the
non-empty fields of all rows bearing that name, in input order. -/
def mergedAttrs (df : Frame) (nm : String) : Attrs :=
  attrFold df.columns []
    (df.rows.filter (fun r => rowGetD r "name" "" == nm))

/-- Extract the graph from a successful build (dummy empty graph otherwise);
used to state closed facts about concrete runs. -/
def okGraph (e : Except BuildErr Graph) : Graph :=
  match e with
  | .ok g => g
  | .error _ => ⟨[], []⟩

/-! ## Concrete inputs for counterexamples and witnesses -/

/-- One NSG row whose security rule is exactly the claim's flat entry
`\x7bdirection: "Inbound", access: "Allow", sourceAddressPrefix: "*"\x7d`
(not nested under a `properties` key). -/
def exC1 : Frame :=
  { columns := ["id", "name", "type", "properties"],
    rows := [[("id", "n1id"), ("name", "nsg1"),
              ("type", "microsoft.network/networksecuritygroups"),
              ("properties", "\x7b\"securityRules\": [\x7b\"direction\": \"Inbound\", \"access\": \"Allow\", \"sourceAddressPrefix\": \"*\"\x7d]\x7d")]] }

def gC1 : Graph := okGraph (build_graph_from_csv exC1)

/-- One NSG row with the same rule correctly nested under the entry's
`properties` sub-object. -/
def exC1W : Frame :=
  { columns := ["id", "name", "type", "properties"],
    rows := [[("id", "n1id"), ("name", "nsg1"),
              ("type", "microsoft.network/networksecuritygroups"),
              ("properties", "\x7b\"securityRules\": [\x7b\"properties\": \x7b\"direction\": \"Inbound\", \"access\": \"Allow\", \"sourceAddressPrefix\": \"*\"\x7d\x7d]\x7d")]] }

def gC1W : Graph := okGraph (build_graph_from_csv exC1W)

def rowC1W : Row :=
  [("id", "n1id"), ("name", "nsg1"),
   ("type", "microsoft.network/networksecuritygroups"),
   ("properties", "\x7b\"securityRules\": [\x7b\"properties\": \x7b\"direction\": \"Inbound\", \"access\": \"Allow\", \"sourceAddressPrefix\": \"*\"\x7d\x7d]\x7d")]

/-- The parsed security rule of `exC1W` (fields nested under `properties`). -/
def ruleC1W : Json :=
  Json.obj [("properties", Json.obj
    [("direction", Json.str "Inbound"), ("access", Json.str "Allow"),
     ("sourceAddressPrefix", Json.str "*")])]

/-- The parsed `properties` object of `exC1W`. -/
def pfC1W : List (String × Json) := [("securityRules", Json.arr [ruleC1W])]

/-- Two rows named `A`; the later one has an empty `tags` cell, so the
node keeps the earlier row's `tags` value. -/
def exC2 : Frame :=
  { columns := ["id", "name", "tags"],
    rows := [[("id", "i1"), ("name", "A"), ("tags", "t")],
             [("id", "i2"), ("name", "A"), ("tags", "")]] }

def gC2 : Graph := okGraph (build_graph_from_csv exC2)

/-- The last `exC2` row named `A` (empty `tags`). -/
def rowC2Last : Row := [("id", "i2"), ("name", "A"), ("tags", "")]

/-- A frame for the amended node-attribute claim. -/
def exC2W : Frame := exC2

def gC2W : Graph := gC2

/-- An exposed NSG row whose `name` is the empty string. -/
def exC3 : Frame :=
  { columns := ["id", "name", "type", "properties"],
    rows := [[("id", "x1"), ("name", ""),
              ("type", "microsoft.network/networksecuritygroups"),
              ("properties", "\x7b\"securityRules\": [\x7b\"properties\": \x7b\"direction\": \"Inbound\", \"access\": \"Allow\", \"sourceAddressPrefix\": \"*\"\x7d\x7d]\x7d")]] }

def gC3 : Graph := okGraph (build_graph_from_csv exC3)

/-- A frame whose rows include an empty-name row that is not exposed. -/
def exC3W : Frame :=
  { columns := ["id", "name", "properties"],
    rows := [[("id", "i1"), ("name", "A"), ("properties", "plain text")],
             [("id", "i2"), ("name", ""), ("properties", "no json")]] }

def gC3W : Graph := okGraph (build_graph_from_csv exC3W)

/-- A storage-account row (mixed-case `type`) with `defaultAction: "Allow"`. -/
def exC4W : Frame :=
  { columns := ["id", "name", "type", "properties"],
    rows := [[("id", "st1"), ("name", "acct1"),
              ("type", "Microsoft.Storage/storageAccounts"),
              ("properties", "\x7b\"networkAcls\": \x7b\"defaultAction\": \"Allow\"\x7d\x7d")]] }

def gC4W : Graph := okGraph (build_graph_from_csv exC4W)

def rowC4W : Row :=
  [("id", "st1"), ("name", "acct1"),
   ("type", "Microsoft.Storage/storageAccounts"),
   ("properties", "\x7b\"networkAcls\": \x7b\"defaultAction\": \"Allow\"\x7d\x7d")]

/-- The parsed `properties` of `exC4W`. -/
def pC4W : Json :=
  Json.obj [("networkAcls", Json.obj [("defaultAction", Json.str "Allow")])]

/-- A frame containing a row with unparseable `properties` ("oops") and a
second row that makes the exposure loop raise an uncaught `TypeError`
(`securityRules` bound to the number 0). -/
def exC5 : Frame :=
  { columns := ["id", "name", "type", "properties"],
    rows := [[("id", "a"), ("name", "A"), ("type", "x"), ("properties", "oops")],
             [("id", "b"), ("name", "B"),
              ("type", "microsoft.network/networksecuritygroups"),
              ("properties", "\x7b\"securityRules\": 0\x7d")]] }

/-- A single row with unparseable `properties`. -/
def rowC5W : Row :=
  [("id", "a"), ("name", "A"), ("properties", "oops")]

/-- `id` and `name` columns both present, yet the build aborts: the NSG row's
`securityRules` is a number, so `for rule in rules` raises `TypeError`,
which the handler `except (json.JSONDecodeError, AttributeError)` does not
catch. -/
def exC6 : Frame :=
  { columns := ["id", "name", "type", "properties"],
    rows := [[("id", "s1"), ("name", "n1"),
              ("type", "microsoft.network/networksecuritygroups"),
              ("properties", "\x7b\"securityRules\": 0\x7d")]] }

/-- Two exposed storage-account rows. -/
def exC7W : Frame :=
  { columns := ["id", "name", "type", "properties"],
    rows := [[("id", "x1"), ("name", "s1"),
              ("type", "Microsoft.Storage/storageAccounts"),
              ("properties", "\x7b\"networkAcls\": \x7b\"defaultAction\": \"Allow\"\x7d\x7d")],
             [("id", "x2"), ("name", "s2"),
              ("type", "Microsoft.Storage/storageAccounts"),
              ("properties", "\x7b\"networkAcls\": \x7b\"defaultAction\": \"Allow\"\x7d\x7d")]] }

def gC7W : Graph := okGraph (build_graph_from_csv exC7W)

def rowC7a : Row :=
  [("id", "x1"), ("name", "s1"),
   ("type", "Microsoft.Storage/storageAccounts"),
   ("properties", "\x7b\"networkAcls\": \x7b\"defaultAction\": \"Allow\"\x7d\x7d")]

/-- One row whose own id occurs inside its own `properties` text. -/
def exC8W : Frame :=
  { columns := ["id", "name", "properties"],
    rows := [[("id", "qqq7"), ("name", "A"), ("properties", "self qqq7 ref")]] }

def rowC8W : Row :=
  [("id", "qqq7"), ("name", "A"), ("properties", "self qqq7 ref")]

/-- Two rows declaring the same id `dup`. -/
def exC9W : Frame :=
  { columns := ["id", "name"],
    rows := [[("id", "dup"), ("name", "first")],
             [("id", "dup"), ("name", "second")]] }

def rowC9Second : Row := [("id", "dup"), ("name", "second")]

/-- Resource `A` whose `properties` text contains resource `B`'s id. -/
def exC10W : Frame :=
  { columns := ["id", "name", "properties"],
    rows := [[("id", "aaa1"), ("name", "A"), ("properties", "x bbb2 y")],
             [("id", "bbb2"), ("name", "B"), ("properties", "zzz")]] }

def rowC10A : Row := [("id", "aaa1"), ("name", "A"), ("properties", "x bbb2 y")]

def rowC10B : Row := [("id", "bbb2"), ("name", "B"), ("properties", "zzz")]

def gC10W : Graph := okGraph (build_graph_from_csv exC10W)

/-! ## Association-list and dictionary lemmas -/

theorem lookup_dinsert {α : Type} (d : List (String × α)) (k k' : String) (v : α) :
    List.lookup k (dinsert d k' v) =
      if k = k' then some v else List.lookup k d := by
  induction d with
  | nil =>
    by_cases h : k = k'
    · have hb : (k == k') = true := by simp [h]
      simp [dinsert, List.lookup_cons, hb, h]
    · have hb : (k == k') = false := by simp [h]
      simp [dinsert, List.lookup_cons, hb, h]
  | cons p t ih =>
    obtain ⟨k0, v0⟩ := p
    by_cases h0 : k0 = k'
    · subst h0
      by_cases h : k = k0
      · have hb : (k == k0) = true := by simp [h]
        simp [dinsert, List.lookup_cons, hb, h]
      · have hb : (k == k0) = false := by simp [h]
        simp [dinsert, List.lookup_cons, hb, h]
    · by_cases h : k = k0
      · have hkk : k ≠ k' := fun he => h0 (h.symm.trans he)
        have hb : (k == k0) = true := by simp [h]
        simp [dinsert, if_neg h0, List.lookup_cons, hb, hkk]
      · have hb : (k == k0) = false := by simp [h]
        simp [dinsert, if_neg h0, List.lookup_cons, hb, ih]

theorem mem_of_lookup_eq_some {α : Type} {d : List (String × α)} {k : String}
    {v : α} (h : List.lookup k d = some v) : (k, v) ∈ d := by
  induction d with
  | nil => simp [List.lookup] at h
  | cons p t ih =>
    obtain ⟨k0, v0⟩ := p
    rw [List.lookup_cons] at h
    by_cases hk : k = k0
    · subst hk
      simp only [beq_self_eq_true] at h
      cases h
      exact List.mem_cons_self _ _
    · have hbeq : (k == k0) = false := by simp [hk]
      simp only [hbeq] at h
      exact List.mem_cons_of_mem _ (ih h)

theorem mem_keys_of_lookup_eq_some {α : Type} {d : List (String × α)}
    {k : String} {v : α} (h : List.lookup k d = some v) :
    k ∈ d.map Prod.fst :=
  List.mem_map.2 ⟨(k, v), mem_of_lookup_eq_some h, rfl⟩

theorem lookup_eq_none_of_not_mem_keys {α : Type} {d : List (String × α)}
    {k : String} (h : k ∉ d.map Prod.fst) : List.lookup k d = none := by
  cases hl : List.lookup k d with
  | none => rfl
  | some v => exact absurd (mem_keys_of_lookup_eq_some hl) h

theorem mergeAttrs_nil_right (a : Attrs) : mergeAttrs a [] = a := rfl

theorem lookup_addNodeList (ns : List (String × Attrs)) (m nm : String) (a : Attrs) :
    List.lookup m (addNodeList ns nm a) =
      if m = nm then some (mergeAttrs ((List.lookup nm ns).getD []) a)
      else List.lookup m ns := by
  induction ns with
  | nil =>
    by_cases h : m = nm
    · have hb : (m == nm) = true := by simp [h]
      simp [addNodeList, List.lookup_cons, hb, h]
    · have hb : (m == nm) = false := by simp [h]
      simp [addNodeList, List.lookup_cons, hb, h]
  | cons p t ih =>
    obtain ⟨k0, v0⟩ := p
    by_cases h0 : k0 = nm
    · subst h0
      by_cases h : m = k0
      · have hb : (m == k0) = true := by simp [h]
        simp [addNodeList, List.lookup_cons, hb, h]
      · have hb : (m == k0) = false := by simp [h]
        simp [addNodeList, List.lookup_cons, hb, h]
    · have hne0 : nm ≠ k0 := fun he => h0 he.symm
      have hb0 : (nm == k0) = false := by simp [hne0]
      by_cases h : m = k0
      · have hmn : m ≠ nm := fun he => h0 (h.symm.trans he)
        have hb : (m == k0) = true := by simp [h]
        simp [addNodeList, if_neg h0, List.lookup_cons, hb, hb0, hmn]
      · have hb : (m == k0) = false := by simp [h]
        simp [addNodeList, if_neg h0, List.lookup_cons, hb, hb0, ih]

theorem keys_addNodeList (ns : List (String × Attrs)) (nm : String) (a : Attrs) :
    (addNodeList ns nm a).map Prod.fst =
      if nm ∈ ns.map Prod.fst then ns.map Prod.fst
      else ns.map Prod.fst ++ [nm] := by
  induction ns with
  | nil => simp [addNodeList]
  | cons p t ih =>
    obtain ⟨k0, v0⟩ := p
    simp only [addNodeList]
    by_cases h0 : k0 = nm
    · subst h0
      simp
    · have hne : nm ≠ k0 := fun hk => h0 hk.symm
      simp only [if_neg h0, List.map_cons, List.mem_cons]
      by_cases hmem : nm ∈ t.map Prod.fst <;> simp [hne, hmem, ih]

theorem mem_keys_addNodeList {ns : List (String × Attrs)} {m nm : String}
    {a : Attrs} (h : m ∈ (addNodeList ns nm a).map Prod.fst) :
    m ∈ ns.map Prod.fst ∨ m = nm := by
  rw [keys_addNodeList] at h
  by_cases hmem : nm ∈ ns.map Prod.fst
  · rw [if_pos hmem] at h
    exact Or.inl h
  · rw [if_neg hmem] at h
    rcases List.mem_append.1 h with h1 | h1
    · exact Or.inl h1
    · simp at h1
      exact Or.inr h1

theorem nodup_keys_addNodeList {ns : List (String × Attrs)} (nm : String)
    (a : Attrs) (h : (ns.map Prod.fst).Nodup) :
    ((addNodeList ns nm a).map Prod.fst).Nodup := by
  rw [keys_addNodeList]
  by_cases hmem : nm ∈ ns.map Prod.fst
  · rwa [if_pos hmem]
  · rw [if_neg hmem, List.nodup_append]
    refine ⟨h, List.nodup_singleton _, ?_⟩
    intro a ha hb
    rw [List.mem_singleton] at hb
    subst hb
    exact hmem ha

/-- With unique keys, the number of entries at a key is 1 or 0 according to
whether lookup succeeds. -/
theorem length_filter_key {α : Type} (l : List (String × α)) (k : String)
    (h : (l.map Prod.fst).Nodup) :
    (l.filter (fun p => p.1 == k)).length =
      if (List.lookup k l).isSome then 1 else 0 := by
  induction l with
  | nil => simp
  | cons p t ih =>
    obtain ⟨k0, v0⟩ := p
    simp only [List.map_cons, List.nodup_cons] at h
    obtain ⟨hk0, ht⟩ := h
    by_cases hk : k0 = k
    · subst hk
      have hfilter : t.filter (fun p => p.1 == k0) = [] := by
        apply List.filter_eq_nil_iff.2
        intro q hq
        have hne : q.1 ≠ k0 := fun he => hk0 (he ▸ List.mem_map.2 ⟨q, hq, rfl⟩)
        simp [hne]
      simp [List.filter_cons, List.lookup_cons, hfilter]
    · have hb : (k0 == k) = false := by simp [hk]
      have hne : k ≠ k0 := fun he => hk he.symm
      have hb2 : (k == k0) = false := by simp [hne]
      rw [List.filter_cons, List.lookup_cons]
      simp only [hb, hb2]
      simpa using ih ht

/-! ## Substring lemmas -/

theorem hasSub_append_left {l nd : List Char} (x : List Char)
    (h : hasSub l nd = true) : hasSub (x ++ l) nd = true := by
  induction x with
  | nil => simpa using h
  | cons c t ih =>
    rw [List.cons_append]
    unfold hasSub
    rw [Bool.or_eq_true]
    exact Or.inr ih

theorem hasSub_of_isPrefixOf {l nd : List Char}
    (h : nd.isPrefixOf l = true) : hasSub l nd = true := by
  unfold hasSub
  rw [Bool.or_eq_true]
  exact Or.inl h

theorem hasSub_append_right {l nd : List Char} (y : List Char)
    (h : hasSub l nd = true) : hasSub (l ++ y) nd = true := by
  induction l with
  | nil =>
    simp only [List.nil_append]
    unfold hasSub at h
    simp only [Bool.or_eq_true] at h
    rcases h with h | h
    · have : nd = [] := by
        cases nd with
        | nil => rfl
        | cons c t => simp [List.isPrefixOf] at h
      subst this
      exact hasSub_of_isPrefixOf (by simp [List.isPrefixOf])
    · cases h
  | cons c t ih =>
    unfold hasSub at h
    simp only [Bool.or_eq_true] at h
    rcases h with h | h
    · apply hasSub_of_isPrefixOf
      rw [List.isPrefixOf_iff_prefix] at h ⊢
      exact h.trans (List.prefix_append _ _)
    · rw [List.cons_append]
      unfold hasSub
      rw [Bool.or_eq_true]
      exact Or.inr (ih h)

/-- A needle inside one part is inside the space-joined whole. -/
theorem strContains_joinSep {parts : List String} {part nd : String}
    (hmem : part ∈ parts) (h : strContains part nd = true) :
    strContains (joinSep " " parts) nd = true := by
  induction parts with
  | nil => cases hmem
  | cons x t ih =>
    cases t with
    | nil =>
      rcases List.mem_singleton.1 hmem with rfl
      simpa [joinSep] using h
    | cons y u =>
      rcases List.mem_cons.1 hmem with rfl | hmem'
      · show hasSub (part ++ " " ++ joinSep " " (y :: u)).data nd.data = true
        rw [String.data_append, String.data_append]
        rw [List.append_assoc]
        exact hasSub_append_right _ h
      · show hasSub (x ++ " " ++ joinSep " " (y :: u)).data nd.data = true
        rw [String.data_append, String.data_append, List.append_assoc]
        apply hasSub_append_left
        apply hasSub_append_left
        exact ih hmem'

/-! ## Graph-operation lemmas -/

theorem edges_addNode (g : Graph) (nm : String) (a : Attrs) :
    (g.addNode nm a).edges = g.edges := rfl

theorem mem_edges_addEdge {g : Graph} {u v : String} {e : String × String} :
    e ∈ (g.addEdge u v).edges ↔ e ∈ g.edges ∨ e = (u, v) := by
  unfold Graph.addEdge
  by_cases h : (u, v) ∈ g.edges
  · simp only [if_pos h]
    constructor
    · exact Or.inl
    · rintro (he | rfl)
      · exact he
      · exact h
  · simp [if_neg h]

theorem lookupNode_addNode (g : Graph) (m nm : String) (a : Attrs) :
    (g.addNode nm a).lookupNode m =
      if m = nm then some (mergeAttrs ((g.lookupNode nm).getD []) a)
      else g.lookupNode m := by
  unfold Graph.addNode Graph.lookupNode
  exact lookup_addNodeList g.nodes m nm a

/-- Adding a node with no attributes leaves a present node's dict unchanged. -/
theorem lookupNode_addNode_nil {g : Graph} {m : String} {a : Attrs}
    (h : g.lookupNode m = some a) (nm : String) :
    (g.addNode nm []).lookupNode m = some a := by
  rw [lookupNode_addNode]
  by_cases he : m = nm
  · subst he
    simp [h, mergeAttrs_nil_right]
  · simp [he, h]

theorem lookupNode_addEdge {g : Graph} {m : String} {a : Attrs}
    (h : g.lookupNode m = some a) (u v : String) :
    (g.addEdge u v).lookupNode m = some a := by
  have h1 : (g.addNode u []).lookupNode m = some a := lookupNode_addNode_nil h u
  have h2 : ((g.addNode u []).addNode v []).lookupNode m = some a :=
    lookupNode_addNode_nil h1 v
  simpa [Graph.addEdge, Graph.addNode, Graph.lookupNode] using h2

theorem keys_addEdge_mem {g : Graph} {m u v : String}
    (h : m ∈ (g.addEdge u v).keys) : m ∈ g.keys ∨ m = u ∨ m = v := by
  unfold Graph.addEdge Graph.keys at h
  rcases mem_keys_addNodeList h with h1 | rfl
  · rcases mem_keys_addNodeList h1 with h2 | rfl
    · exact Or.inl h2
    · exact Or.inr (Or.inl rfl)
  · exact Or.inr (Or.inr rfl)

theorem keys_addNode_mem {g : Graph} {m nm : String} {a : Attrs}
    (h : m ∈ (g.addNode nm a).keys) : m ∈ g.keys ∨ m = nm :=
  mem_keys_addNodeList h

theorem nodup_keys_addNode {g : Graph} (nm : String) (a : Attrs)
    (h : g.keys.Nodup) : (g.addNode nm a).keys.Nodup :=
  nodup_keys_addNodeList nm a h

theorem nodup_keys_addEdge {g : Graph} (u v : String)
    (h : g.keys.Nodup) : (g.addEdge u v).keys.Nodup :=
  nodup_keys_addNodeList v [] (nodup_keys_addNodeList u [] h)

/-! ## Node-creation loop -/

theorem nodesFold_lookup (cols : List String) (rows : List Row) (g : Graph)
    (nm : String) (hnm : nm ≠ "") :
    (rows.foldl (nodeStep cols) g).lookupNode nm =
      if (rows.filter (fun r => rowGetD r "name" "" == nm)).isEmpty then
        g.lookupNode nm
      else
        some (attrFold cols ((g.lookupNode nm).getD [])
          (rows.filter (fun r => rowGetD r "name" "" == nm))) := by
  induction rows generalizing g with
  | nil => simp
  | cons r rs ih =>
    rw [List.foldl_cons]
    by_cases hr : rowGetD r "name" "" = nm
    · have hb : (rowGetD r "name" "" == nm) = true := by simp [hr]
      have hfil : List.filter (fun r => rowGetD r "name" "" == nm) (r :: rs) =
          r :: List.filter (fun r => rowGetD r "name" "" == nm) rs := by
        rw [List.filter_cons, hb, if_pos rfl]
      have hstep : nodeStep cols g r = g.addNode nm (rowAttrs cols r) := by
        unfold nodeStep
        rw [hr, if_neg hnm]
      have hsome : (g.addNode nm (rowAttrs cols r)).lookupNode nm =
          some (mergeAttrs ((g.lookupNode nm).getD []) (rowAttrs cols r)) := by
        rw [lookupNode_addNode, if_pos rfl]
      rw [hfil, hstep, ih]
      by_cases hrest : (rs.filter (fun r => rowGetD r "name" "" == nm)).isEmpty
      · have hnil : rs.filter (fun r => rowGetD r "name" "" == nm) = [] :=
          List.isEmpty_iff.1 hrest
        simp [hnil, hsome, attrFold]
      · simp [hrest, hsome, attrFold]
    · have hb : (rowGetD r "name" "" == nm) = false := by simp [hr]
      have hfil : List.filter (fun r => rowGetD r "name" "" == nm) (r :: rs) =
          List.filter (fun r => rowGetD r "name" "" == nm) rs := by
        rw [List.filter_cons, hb]
        simp
      have hstep : (nodeStep cols g r).lookupNode nm = g.lookupNode nm := by
        unfold nodeStep
        by_cases he : rowGetD r "name" "" = ""
        · rw [if_pos he]
        · rw [if_neg he, lookupNode_addNode, if_neg (fun hx => hr hx.symm)]
      rw [hfil, ih, hstep]

theorem nodesFold_keys {cols : List String} {rows : List Row} {g : Graph}
    {m : String} (h : m ∈ (rows.foldl (nodeStep cols) g).keys) :
    m ∈ g.keys ∨ ∃ r ∈ rows, rowGetD r "name" "" = m ∧ m ≠ "" := by
  induction rows generalizing g with
  | nil => exact Or.inl h
  | cons r rs ih =>
    rw [List.foldl_cons] at h
    rcases ih h with h1 | ⟨r', hr', he, hne⟩
    · unfold nodeStep at h1
      by_cases he : rowGetD r "name" "" = ""
      · rw [if_pos he] at h1
        exact Or.inl h1
      · rw [if_neg he] at h1
        rcases keys_addNode_mem h1 with h2 | rfl
        · exact Or.inl h2
        · exact Or.inr ⟨r, List.mem_cons_self _ _, rfl, he⟩
    · exact Or.inr ⟨r', List.mem_cons_of_mem _ hr', he, hne⟩

theorem nodesFold_edges (cols : List String) (rows : List Row) (g : Graph) :
    (rows.foldl (nodeStep cols) g).edges = g.edges := by
  induction rows generalizing g with
  | nil => rfl
  | cons r rs ih =>
    rw [List.foldl_cons, ih]
    unfold nodeStep
    by_cases he : rowGetD r "name" "" = ""
    · rw [if_pos he]
    · rw [if_neg he, edges_addNode]

theorem nodesFold_nodup (cols : List String) (rows : List Row) (g : Graph)
    (h : g.keys.Nodup) : (rows.foldl (nodeStep cols) g).keys.Nodup := by
  induction rows generalizing g with
  | nil => exact h
  | cons r rs ih =>
    rw [List.foldl_cons]
    apply ih
    unfold nodeStep
    by_cases he : rowGetD r "name" "" = ""
    · rwa [if_pos he]
    · rw [if_neg he]
      exact nodup_keys_addNode _ _ h

/-! ## Reference-inference loop -/

/-- Shape of a pair produced by the inner loop for one row. -/
theorem rowRefPairs_shape {ids : List (String × String)} {cands : List String}
    {scols : List String} {r : Row} {p : String × String}
    (h : p ∈ rowRefPairs ids cands scols r) :
    p.1 = rowGetD r "name" "" ∧ p.1 ≠ "" ∧ p.2 ≠ "" ∧
      ∃ cid ∈ cands, cid ≠ rowGetD r "id" "" ∧
        strContains (hayOf scols r) cid = true ∧
        List.lookup cid ids = some p.2 := by
  unfold rowRefPairs at h
  by_cases hs : rowGetD r "name" "" = ""
  · rw [if_pos hs] at h
    cases h
  · rw [if_neg hs] at h
    rcases List.mem_filterMap.1 h with ⟨cid, hcid, hf⟩
    by_cases h1 : cid = rowGetD r "id" ""
    · rw [if_pos h1] at hf
      cases hf
    · rw [if_neg h1] at hf
      by_cases h2 : strContains (hayOf scols r) cid = true
      · rw [if_pos h2] at hf
        cases hlk : List.lookup cid ids with
        | none => rw [hlk] at hf; cases hf
        | some tgt =>
          rw [hlk] at hf
          have hf2 : (if tgt = "" then (none : Option (String × String))
              else some (rowGetD r "name" "", tgt)) = some p := hf
          by_cases h3 : tgt = ""
          · rw [if_pos h3] at hf2
            cases hf2
          · rw [if_neg h3] at hf2
            cases hf2
            exact ⟨rfl, hs, h3, cid, hcid, h1, h2, hlk⟩
      · rw [if_neg h2] at hf
        cases hf

/-- Conversely, a candidate id with all the guards satisfied produces its
pair. -/
theorem mem_rowRefPairs {ids : List (String × String)} {cands : List String}
    {scols : List String} {r : Row} {cid tgt : String}
    (hcid : cid ∈ cands) (h1 : cid ≠ rowGetD r "id" "")
    (h2 : strContains (hayOf scols r) cid = true)
    (h3 : List.lookup cid ids = some tgt) (h4 : tgt ≠ "")
    (h5 : rowGetD r "name" "" ≠ "") :
    (rowGetD r "name" "", tgt) ∈ rowRefPairs ids cands scols r := by
  unfold rowRefPairs
  rw [if_neg h5]
  refine List.mem_filterMap.2 ⟨cid, hcid, ?_⟩
  rw [if_neg h1, if_pos h2, h3]
  show (if tgt = "" then (none : Option (String × String))
      else some (rowGetD r "name" "", tgt)) = some (rowGetD r "name" "", tgt)
  rw [if_neg h4]

theorem mem_edges_applyRefPair {g : Graph} {p e : String × String} :
    e ∈ (applyRefPair g p).edges ↔ e ∈ g.edges ∨ e = p := by
  unfold applyRefPair
  rw [mem_edges_addEdge, edges_addNode]

theorem mem_edges_refPairsFold {g : Graph} {ps : List (String × String)}
    {e : String × String} :
    e ∈ (ps.foldl applyRefPair g).edges ↔ e ∈ g.edges ∨ e ∈ ps := by
  induction ps generalizing g with
  | nil => simp
  | cons p t ih =>
    rw [List.foldl_cons, ih, mem_edges_applyRefPair]
    constructor
    · rintro ((he | rfl) | ht)
      · exact Or.inl he
      · exact Or.inr (List.mem_cons_self _ _)
      · exact Or.inr (List.mem_cons_of_mem _ ht)
    · rintro (he | hm)
      · exact Or.inl (Or.inl he)
      · rcases List.mem_cons.1 hm with rfl | ht
        · exact Or.inl (Or.inr rfl)
        · exact Or.inr ht

theorem mem_edges_refFold {ids : List (String × String)} {cands scols : List String}
    {rows : List Row} {g : Graph} {e : String × String} :
    e ∈ (rows.foldl (refStep ids cands scols) g).edges ↔
      e ∈ g.edges ∨ ∃ r ∈ rows, e ∈ rowRefPairs ids cands scols r := by
  induction rows generalizing g with
  | nil => simp
  | cons r rs ih =>
    rw [List.foldl_cons, ih]
    unfold refStep
    rw [mem_edges_refPairsFold]
    constructor
    · rintro ((he | hp) | ⟨r', hr', hp'⟩)
      · exact Or.inl he
      · exact Or.inr ⟨r, List.mem_cons_self _ _, hp⟩
      · exact Or.inr ⟨r', List.mem_cons_of_mem _ hr', hp'⟩
    · rintro (he | ⟨r', hr', hp'⟩)
      · exact Or.inl (Or.inl he)
      · rcases List.mem_cons.1 hr' with rfl | hr''
        · exact Or.inl (Or.inr hp')
        · exact Or.inr ⟨r', hr'', hp'⟩

theorem lookupNode_applyRefPair {g : Graph} {m : String} {a : Attrs}
    (h : g.lookupNode m = some a) (p : String × String) :
    (applyRefPair g p).lookupNode m = some a :=
  lookupNode_addEdge (lookupNode_addNode_nil h p.2) p.1 p.2

theorem lookupNode_refPairsFold {g : Graph} {ps : List (String × String)}
    {m : String} {a : Attrs} (h : g.lookupNode m = some a) :
    (ps.foldl applyRefPair g).lookupNode m = some a := by
  induction ps generalizing g with
  | nil => exact h
  | cons p t ih =>
    rw [List.foldl_cons]
    exact ih (lookupNode_applyRefPair h p)

theorem lookupNode_refFold {ids : List (String × String)} {cands scols : List String}
    {rows : List Row} {g : Graph} {m : String} {a : Attrs}
    (h : g.lookupNode m = some a) :
    (rows.foldl (refStep ids cands scols) g).lookupNode m = some a := by
  induction rows generalizing g with
  | nil => exact h
  | cons r rs ih =>
    rw [List.foldl_cons]
    exact ih (lookupNode_refPairsFold h)

theorem keys_applyRefPair_mem {g : Graph} {m : String} {p : String × String}
    (h : m ∈ (applyRefPair g p).keys) : m ∈ g.keys ∨ m = p.1 ∨ m = p.2 := by
  unfold applyRefPair at h
  rcases keys_addEdge_mem h with h1 | rfl | rfl
  · rcases keys_addNode_mem h1 with h2 | rfl
    · exact Or.inl h2
    · exact Or.inr (Or.inr rfl)
  · exact Or.inr (Or.inl rfl)
  · exact Or.inr (Or.inr rfl)

theorem keys_refPairsFold_mem {g : Graph} {ps : List (String × String)}
    {m : String} (h : m ∈ (ps.foldl applyRefPair g).keys) :
    m ∈ g.keys ∨ ∃ p ∈ ps, m = p.1 ∨ m = p.2 := by
  induction ps generalizing g with
  | nil => exact Or.inl h
  | cons p t ih =>
    rw [List.foldl_cons] at h
    rcases ih h with h1 | ⟨p', hp', he⟩
    · rcases keys_applyRefPair_mem h1 with h2 | he
      · exact Or.inl h2
      · exact Or.inr ⟨p, List.mem_cons_self _ _, he⟩
    · exact Or.inr ⟨p', List.mem_cons_of_mem _ hp', he⟩

theorem keys_refFold_mem {ids : List (String × String)} {cands scols : List String}
    {rows : List Row} {g : Graph} {m : String}
    (h : m ∈ (rows.foldl (refStep ids cands scols) g).keys) :
    m ∈ g.keys ∨ ∃ r ∈ rows, ∃ p ∈ rowRefPairs ids cands scols r, m = p.1 ∨ m = p.2 := by
  induction rows generalizing g with
  | nil => exact Or.inl h
  | cons r rs ih =>
    rw [List.foldl_cons] at h
    rcases ih h with h1 | ⟨r', hr', hp⟩
    · unfold refStep at h1
      rcases keys_refPairsFold_mem h1 with h2 | ⟨p', hp', he⟩
      · exact Or.inl h2
      · exact Or.inr ⟨r, List.mem_cons_self _ _, p', hp', he⟩
    · exact Or.inr ⟨r', List.mem_cons_of_mem _ hr', hp⟩

theorem nodup_keys_applyRefPair {g : Graph} (p : String × String)
    (h : g.keys.Nodup) : (applyRefPair g p).keys.Nodup :=
  nodup_keys_addEdge _ _ (nodup_keys_addNode _ _ h)

theorem nodup_keys_refFold {ids : List (String × String)} {cands scols : List String}
    (rows : List Row) (g : Graph) (h : g.keys.Nodup) :
    ((rows.foldl (refStep ids cands scols) g)).keys.Nodup := by
  induction rows generalizing g with
  | nil => exact h
  | cons r rs ih =>
    rw [List.foldl_cons]
    apply ih
    unfold refStep
    generalize rowRefPairs ids cands scols r = ps
    induction ps generalizing g with
    | nil => exact h
    | cons p t ih2 =>
      rw [List.foldl_cons]
      exact ih2 _ (nodup_keys_applyRefPair p h)

theorem edges_refFold_sub {ids : List (String × String)} {cands scols : List String}
    {rows : List Row} {g : Graph} {e : String × String} (h : e ∈ g.edges) :
    e ∈ (rows.foldl (refStep ids cands scols) g).edges :=
  mem_edges_refFold.2 (Or.inl h)

/-- Values stored by the identity index are names of rows of the frame. -/
theorem idFold_lookup_mem {α : Type} (f : Row → α) (rows : List Row)
    (d : List (String × α)) (i : String) (v : α)
    (h : List.lookup i (idFold f rows d) = some v) :
    (∃ r ∈ rows, f r = v) ∨ List.lookup i d = some v := by
  induction rows generalizing d with
  | nil => exact Or.inr h
  | cons r rs ih =>
    unfold idFold at h
    rw [List.foldl_cons] at h
    rcases ih _ (by exact h) with h1 | h2
    · rcases h1 with ⟨r', hr', hv⟩
      exact Or.inl ⟨r', List.mem_cons_of_mem _ hr', hv⟩
    · by_cases hi : rowGetD r "id" "" = ""
      · rw [if_pos hi] at h2
        exact Or.inr h2
      · rw [if_neg hi, lookup_dinsert] at h2
        by_cases he : i = rowGetD r "id" ""
        · rw [if_pos he] at h2
          cases h2
          exact Or.inl ⟨r, List.mem_cons_self _ _, rfl⟩
        · rw [if_neg he] at h2
          exact Or.inr h2

/-- Last-write-wins characterization of the identity index. -/
theorem idFold_lookup {α : Type} (f : Row → α) (rows : List Row)
    (d : List (String × α)) (i : String) (hi : i ≠ "") :
    List.lookup i (idFold f rows d) =
      match (rows.filter (fun r => rowGetD r "id" "" == i)).getLast? with
      | some r => some (f r)
      | none => List.lookup i d := by
  induction rows generalizing d with
  | nil => simp [idFold]
  | cons r rs ih =>
    unfold idFold
    rw [List.foldl_cons, List.filter_cons]
    by_cases hr : rowGetD r "id" "" = i
    · have hb : (rowGetD r "id" "" == i) = true := by simp [hr]
      have hne : rowGetD r "id" "" ≠ "" := by rw [hr]; exact hi
      rw [hb, if_pos rfl, if_neg hne]
      have := ih (dinsert d (rowGetD r "id" "") (f r))
      unfold idFold at this
      rw [this]
      cases hlast : (rs.filter (fun r => rowGetD r "id" "" == i)).getLast? with
      | some r' => simp [List.getLast?_cons, hlast]
      | none =>
        have hnil : rs.filter (fun r => rowGetD r "id" "" == i) = [] := by
          rwa [List.getLast?_eq_none_iff] at hlast
        rw [hnil]
        simp only [List.getLast?_singleton]
        rw [lookup_dinsert, if_pos (hr.symm ▸ rfl : i = rowGetD r "id" "")]
    · have hb : (rowGetD r "id" "" == i) = false := by simp [hr]
      rw [hb]
      simp only [Bool.false_eq_true, if_false]
      by_cases hz : rowGetD r "id" "" = ""
      · rw [if_pos hz]
        have := ih d
        unfold idFold at this
        rw [this]
      · rw [if_neg hz]
        have := ih (dinsert d (rowGetD r "id" "") (f r))
        unfold idFold at this
        rw [this]
        cases hlast : (rs.filter (fun r => rowGetD r "id" "" == i)).getLast? with
        | some r' => rfl
        | none =>
          rw [lookup_dinsert, if_neg (fun he => hr he.symm)]

/-! ## Exposure loop -/

theorem expFold_ok_edges {rows : List Row} {g g' : Graph} {fl fl' : Bool}
    (h : expFold (g, fl) rows = .ok (g', fl')) (e : String × String) :
    e ∈ g'.edges ↔
      e ∈ g.edges ∨
        ∃ r ∈ rows, rowExposed r = .ok true ∧ e = ("Internet", rowGetD r "name" "") := by
  induction rows generalizing g fl with
  | nil =>
    unfold expFold at h
    cases h
    simp
  | cons r rs ih =>
    unfold expFold at h
    cases hstep : expStep (g, fl) r with
    | error e0 => rw [hstep] at h; cases h
    | ok acc2 =>
      rw [hstep] at h
      obtain ⟨g2, fl2⟩ := acc2
      rw [ih h]
      unfold expStep at hstep
      cases hexp : rowExposed r with
      | error e0 => rw [hexp] at hstep; cases hstep
      | ok b =>
        rw [hexp] at hstep
        cases b with
        | false =>
          cases hstep
          constructor
          · rintro (he | ⟨r', hr', hx, hee⟩)
            · exact Or.inl he
            · exact Or.inr ⟨r', List.mem_cons_of_mem _ hr', hx, hee⟩
          · rintro (he | ⟨r', hr', hx, hee⟩)
            · exact Or.inl he
            · rcases List.mem_cons.1 hr' with rfl | hr''
              · rw [hexp] at hx
                cases hx
              · exact Or.inr ⟨r', hr'', hx, hee⟩
        | true =>
          cases hstep
          have hmem : e ∈ ((if fl then g else g.addNode "Internet" internetAttrs).addEdge
              "Internet" (rowGetD r "name" "")).edges ↔
              e ∈ g.edges ∨ e = ("Internet", rowGetD r "name" "") := by
            by_cases hfl : fl
            · rw [if_pos hfl, mem_edges_addEdge]
            · rw [if_neg hfl, mem_edges_addEdge, edges_addNode]
          rw [hmem]
          constructor
          · rintro ((he | rfl) | ⟨r', hr', hx, hee⟩)
            · exact Or.inl he
            · exact Or.inr ⟨r, List.mem_cons_self _ _, hexp, rfl⟩
            · exact Or.inr ⟨r', List.mem_cons_of_mem _ hr', hx, hee⟩
          · rintro (he | ⟨r', hr', hx, hee⟩)
            · exact Or.inl (Or.inl he)
            · rcases List.mem_cons.1 hr' with rfl | hr''
              · exact Or.inl (Or.inr hee)
              · exact Or.inr ⟨r', hr'', hx, hee⟩

theorem expFold_ok_lookup {rows : List Row} {g g' : Graph} {fl fl' : Bool}
    {m : String} {a : Attrs} (h : expFold (g, fl) rows = .ok (g', fl'))
    (hm : m ≠ "Internet") (hl : g.lookupNode m = some a) :
    g'.lookupNode m = some a := by
  induction rows generalizing g fl with
  | nil =>
    unfold expFold at h
    cases h
    exact hl
  | cons r rs ih =>
    unfold expFold at h
    cases hstep : expStep (g, fl) r with
    | error e0 => rw [hstep] at h; cases h
    | ok acc2 =>
      rw [hstep] at h
      obtain ⟨g2, fl2⟩ := acc2
      unfold expStep at hstep
      cases hexp : rowExposed r with
      | error e0 => rw [hexp] at hstep; cases hstep
      | ok b =>
        rw [hexp] at hstep
        cases b with
        | false =>
          cases hstep
          exact ih h hl
        | true =>
          cases hstep
          apply ih h
          apply lookupNode_addEdge
          by_cases hfl : fl
          · rw [if_pos hfl]
            exact hl
          · rw [if_neg hfl]
            rw [lookupNode_addNode, if_neg hm]
            exact hl

/-- The lazy-creation invariant for the Internet node: the flag tracks the
node exactly, and once created its attribute dict stays `internetAttrs`. -/
theorem expFold_internet {rows : List Row} {g g' : Graph} {fl fl' : Bool}
    (h : expFold (g, fl) rows = .ok (g', fl'))
    (h0 : fl = false → g.lookupNode "Internet" = none)
    (h1 : fl = true → g.lookupNode "Internet" = some internetAttrs) :
    (fl' = false → g'.lookupNode "Internet" = none) ∧
      (fl' = true → g'.lookupNode "Internet" = some internetAttrs) ∧
      (fl' = true ↔ fl = true ∨ ∃ r ∈ rows, rowExposed r = .ok true) := by
  induction rows generalizing g fl with
  | nil =>
    unfold expFold at h
    cases h
    simpa using ⟨h0, h1⟩
  | cons r rs ih =>
    unfold expFold at h
    cases hstep : expStep (g, fl) r with
    | error e0 => rw [hstep] at h; cases h
    | ok acc2 =>
      rw [hstep] at h
      obtain ⟨g2, fl2⟩ := acc2
      unfold expStep at hstep
      cases hexp : rowExposed r with
      | error e0 => rw [hexp] at hstep; cases hstep
      | ok b =>
        rw [hexp] at hstep
        cases b with
        | false =>
          cases hstep
          obtain ⟨c0, c1, c2⟩ := ih h h0 h1
          refine ⟨c0, c1, ?_⟩
          rw [c2]
          constructor
          · rintro (hf | ⟨r', hr', hx⟩)
            · exact Or.inl hf
            · exact Or.inr ⟨r', List.mem_cons_of_mem _ hr', hx⟩
          · rintro (hf | ⟨r', hr', hx⟩)
            · exact Or.inl hf
            · rcases List.mem_cons.1 hr' with rfl | hr''
              · rw [hexp] at hx
                cases hx
              · exact Or.inr ⟨r', hr'', hx⟩
        | true =>
          cases hstep
          have hInternet : ((if fl then g else g.addNode "Internet" internetAttrs).addEdge
              "Internet" (rowGetD r "name" "")).lookupNode "Internet" =
              some internetAttrs := by
            apply lookupNode_addEdge
            by_cases hfl : fl
            · rw [if_pos hfl]
              exact h1 hfl
            · rw [if_neg hfl, lookupNode_addNode, if_pos rfl]
              rw [h0 (by simpa using hfl)]
              rfl
          obtain ⟨c0, c1, c2⟩ := ih h (by simp) (fun _ => hInternet)
          refine ⟨c0, c1, ?_⟩
          have hfl' : fl' = true := c2.2 (Or.inl rfl)
          constructor
          · intro _
            exact Or.inr ⟨r, List.mem_cons_self _ _, hexp⟩
          · intro _
            exact hfl'

theorem expFold_keys_mem {rows : List Row} {g g' : Graph} {fl fl' : Bool}
    {m : String} (h : expFold (g, fl) rows = .ok (g', fl'))
    (hm : m ∈ g'.keys) :
    m ∈ g.keys ∨ m = "Internet" ∨
      ∃ r ∈ rows, rowExposed r = .ok true ∧ m = rowGetD r "name" "" := by
  induction rows generalizing g fl with
  | nil =>
    unfold expFold at h
    cases h
    exact Or.inl hm
  | cons r rs ih =>
    unfold expFold at h
    cases hstep : expStep (g, fl) r with
    | error e0 => rw [hstep] at h; cases h
    | ok acc2 =>
      rw [hstep] at h
      obtain ⟨g2, fl2⟩ := acc2
      unfold expStep at hstep
      cases hexp : rowExposed r with
      | error e0 => rw [hexp] at hstep; cases hstep
      | ok b =>
        rw [hexp] at hstep
        cases b with
        | false =>
          cases hstep
          rcases ih h with h1 | h1 | ⟨r', hr', hx, he⟩
          · exact Or.inl h1
          · exact Or.inr (Or.inl h1)
          · exact Or.inr (Or.inr ⟨r', List.mem_cons_of_mem _ hr', hx, he⟩)
        | true =>
          cases hstep
          rcases ih h with h1 | h1 | ⟨r', hr', hx, he⟩
          · rcases keys_addEdge_mem h1 with h2 | rfl | rfl
            · by_cases hfl : fl
              · rw [if_pos hfl] at h2
                exact Or.inl h2
              · rw [if_neg hfl] at h2
                rcases keys_addNode_mem h2 with h3 | rfl
                · exact Or.inl h3
                · exact Or.inr (Or.inl rfl)
            · exact Or.inr (Or.inl rfl)
            · exact Or.inr (Or.inr ⟨r, List.mem_cons_self _ _, hexp, rfl⟩)
          · exact Or.inr (Or.inl h1)
          · exact Or.inr (Or.inr ⟨r', List.mem_cons_of_mem _ hr', hx, he⟩)

theorem expFold_nodup {rows : List Row} {g g' : Graph} {fl fl' : Bool}
    (h : expFold (g, fl) rows = .ok (g', fl')) (hn : g.keys.Nodup) :
    g'.keys.Nodup := by
  induction rows generalizing g fl with
  | nil =>
    unfold expFold at h
    cases h
    exact hn
  | cons r rs ih =>
    unfold expFold at h
    cases hstep : expStep (g, fl) r with
    | error e0 => rw [hstep] at h; cases h
    | ok acc2 =>
      rw [hstep] at h
      obtain ⟨g2, fl2⟩ := acc2
      unfold expStep at hstep
      cases hexp : rowExposed r with
      | error e0 => rw [hexp] at hstep; cases hstep
      | ok b =>
        rw [hexp] at hstep
        cases b with
        | false =>
          cases hstep
          exact ih h hn
        | true =>
          cases hstep
          apply ih h
          apply nodup_keys_addEdge
          by_cases hfl : fl
          · rwa [if_pos hfl]
          · rw [if_neg hfl]
            exact nodup_keys_addNode _ _ hn

/-! ## Whole-build lemmas -/

theorem build_ok_elim {df : Frame} {g : Graph}
    (h : build_graph_from_csv df = .ok g) :
    ("id" ∈ df.columns ∧ "name" ∈ df.columns) ∧
      ∃ fl, expFold (refGraph df, false) df.rows = .ok (g, fl) := by
  unfold build_graph_from_csv at h
  by_cases hc : "id" ∈ df.columns ∧ "name" ∈ df.columns
  · rw [if_pos hc] at h
    refine ⟨hc, ?_⟩
    cases hf : expFold (refGraph df, false) df.rows with
    | error e0 => rw [hf] at h; cases h
    | ok acc =>
      rw [hf] at h
      obtain ⟨g0, fl0⟩ := acc
      cases h
      exact ⟨fl0, rfl⟩
  · rw [if_neg hc] at h
    cases h

/-- Every node key of the graph after the first two loops is the non-empty
name of some row. -/
theorem keys_refGraph_names {df : Frame} {m : String}
    (h : m ∈ (refGraph df).keys) :
    ∃ r ∈ df.rows, rowGetD r "name" "" = m ∧ m ≠ "" := by
  unfold refGraph at h
  rcases keys_refFold_mem h with h1 | ⟨r, hr, p, hp, he⟩
  · unfold nodesGraph at h1
    rcases nodesFold_keys h1 with h2 | h2
    · cases h2
    · exact h2
  · obtain ⟨hsrc, hs1, hs2, cid, _, _, _, hlk⟩ := rowRefPairs_shape hp
    rcases he with rfl | rfl
    · exact ⟨r, hr, hsrc.symm, hs1⟩
    · rcases idFold_lookup_mem _ _ _ _ _ hlk with ⟨r', hr', hv⟩ | hnil
      · exact ⟨r', hr', hv, hs2⟩
      · simp [List.lookup] at hnil

/-- No reference edge has the Internet node as its source when no row is
named `"Internet"`, so Internet edges in the final graph are exactly the
exposure edges. -/
theorem build_internet_edge_iff {df : Frame} {g : Graph} {nm : String}
    (h : build_graph_from_csv df = .ok g)
    (hno : ∀ r ∈ df.rows, rowGetD r "name" "" ≠ "Internet") :
    (("Internet", nm) ∈ g.edges ↔
      ∃ r ∈ df.rows, rowGetD r "name" "" = nm ∧ rowExposed r = .ok true) := by
  obtain ⟨_, fl, hf⟩ := build_ok_elim h
  rw [expFold_ok_edges hf]
  have hrefl : ("Internet", nm) ∉ (refGraph df).edges := by
    intro hmem
    unfold refGraph at hmem
    rcases mem_edges_refFold.1 hmem with h1 | ⟨r, hr, hp⟩
    · unfold nodesGraph at h1
      rw [nodesFold_edges] at h1
      cases h1
    · obtain ⟨hsrc, _, _, _⟩ := rowRefPairs_shape hp
      exact hno r hr (hsrc ▸ rfl)
  constructor
  · rintro (he | ⟨r, hr, hx, he⟩)
    · exact absurd he hrefl
    · cases he
      exact ⟨r, hr, rfl, hx⟩
  · rintro ⟨r, hr, rfl, hx⟩
    exact Or.inr ⟨r, hr, hx, rfl⟩

/-! ## Characterizations of the exposure checks -/

theorem rowExposed_parse_none {row : Row}
    (h : parseJson (rowGetD row "properties" "\x7b\x7d") = none) :
    rowExposed row = .ok false := by
  unfold rowExposed
  rw [h]

theorem expStep_not_exposed {row : Row} (h : rowExposed row = .ok false)
    (acc : Graph × Bool) : expStep acc row = .ok acc := by
  unfold expStep
  rw [h]

/-- The storage-account branch under the exception handler computes exactly
the spec-side condition, for every parsed value. -/
theorem catchAttr_storageCheck (p : Json) :
    catchAttrErr (storageCheck p) = .ok (storageOpen p) := by
  cases p with
  | null => rfl
  | bool b => rfl
  | num l => rfl
  | str s => rfl
  | arr xs => rfl
  | obj fs =>
    cases hacls : List.lookup "networkAcls" fs with
    | none =>
      simp only [storageCheck, pyGetAttr, hacls, Option.getD_none,
        catchAttrErr, storageOpen, jMember, List.lookup_nil]
      rfl
    | some acls =>
      cases acls with
      | obj afs =>
        cases hda : List.lookup "defaultAction" afs with
        | none =>
          simp only [storageCheck, pyGetAttr, hacls, hda, Option.getD_some,
            Option.getD_none, catchAttrErr, storageOpen, jMember, pyLower]
          rfl
        | some da =>
          cases da <;>
            simp only [storageCheck, pyGetAttr, hacls, hda, Option.getD_some,
              catchAttrErr, storageOpen, jMember, pyLower]
      | null =>
        simp only [storageCheck, pyGetAttr, hacls, Option.getD_some,
          catchAttrErr, storageOpen, jMember]
      | bool b =>
        simp only [storageCheck, pyGetAttr, hacls, Option.getD_some,
          catchAttrErr, storageOpen, jMember]
      | num l =>
        simp only [storageCheck, pyGetAttr, hacls, Option.getD_some,
          catchAttrErr, storageOpen, jMember]
      | str s =>
        simp only [storageCheck, pyGetAttr, hacls, Option.getD_some,
          catchAttrErr, storageOpen, jMember]
      | arr xs =>
        simp only [storageCheck, pyGetAttr, hacls, Option.getD_some,
          catchAttrErr, storageOpen, jMember]

/-- On a row whose `type` lowercases to the storage-account type, the
exposure check returns (without error) exactly the spec-side condition. -/
theorem rowExposed_storage {row : Row}
    (htype : strLower (rowGetD row "type" "") = storageTypeName) :
    rowExposed row = .ok (storageAllowsInternet row) := by
  unfold rowExposed storageAllowsInternet
  cases hp : parseJson (rowGetD row "properties" "\x7b\x7d") with
  | none => rfl
  | some p =>
    have hne : strLower (rowGetD row "type" "") ≠ nsgTypeName := by
      rw [htype]
      decide
    show (if strLower (rowGetD row "type" "") = nsgTypeName then
        catchAttrErr (nsgCheck p)
      else if strLower (rowGetD row "type" "") = storageTypeName then
        catchAttrErr (storageCheck p)
      else Except.ok false) = Except.ok (storageOpen p)
    rw [if_neg hne, if_pos htype]
    exact catchAttr_storageCheck p

/-- On well-formed rule entries the rule loop never raises, and computes
"some entry opens to the Internet" with the script's short-circuit order. -/
theorem checkRules_wf (rules : List Json)
    (hwf : ∀ rule ∈ rules, ruleWF rule = true) :
    checkRules rules = .ok (rules.any ruleOpensInternet) := by
  induction rules with
  | nil => rfl
  | cons rule rest ih =>
    have hw : ruleWF rule = true := hwf rule (List.mem_cons_self _ _)
    have ihr : checkRules rest = .ok (rest.any ruleOpensInternet) :=
      ih (fun r hr => hwf r (List.mem_cons_of_mem _ hr))
    cases rule with
    | null => simp [ruleWF] at hw
    | bool b => simp [ruleWF] at hw
    | num l => simp [ruleWF] at hw
    | str s => simp [ruleWF] at hw
    | arr xs => simp [ruleWF] at hw
    | obj fs =>
      cases hrp : List.lookup "properties" fs with
      | none =>
        have hro : ruleOpensInternet (Json.obj fs) = false := by
          simp only [ruleOpensInternet, jMember, hrp, Option.getD_none]
          rfl
        have hcheck : checkRules (Json.obj fs :: rest) = checkRules rest := by
          simp only [checkRules, pyGetAttr, hrp, Option.getD_none, pyLower,
            List.lookup_nil]
          rw [if_neg (by decide : ¬strLower "" = "inbound")]
        rw [hcheck, ihr, List.any_cons, hro, Bool.false_or]
      | some rp =>
        simp only [ruleWF] at hw
        rw [hrp] at hw
        cases rp with
        | obj rpf =>
          simp only [propsWF, Bool.and_eq_true] at hw
          obtain ⟨⟨hwd, hwa⟩, hws⟩ := hw
          have hro : ruleOpensInternet (Json.obj fs) =
              ruleOpensProps (Json.obj rpf) := by
            simp only [ruleOpensInternet, jMember, hrp, Option.getD_some]
          have hprops : ruleOpensProps (Json.obj rpf) =
              (decide (strLower (jStrD (List.lookup "direction" rpf)) = "inbound") &&
               decide (strLower (jStrD (List.lookup "access" rpf)) = "allow") &&
               decide (strLower (jStrD (List.lookup "sourceAddressPrefix" rpf))
                 ∈ internetSources)) := by
            simp only [ruleOpensProps, jMember]
          cases hdir : List.lookup "direction" rpf with
          | none =>
            have hstep : checkRules (Json.obj fs :: rest) = checkRules rest := by
              simp only [checkRules, pyGetAttr, hrp, Option.getD_some,
                Option.getD_none, pyLower, hdir]
              rw [if_neg (by decide : ¬strLower "" = "inbound")]
            rw [hstep, ihr, List.any_cons, hro, hprops, hdir]
            simp only [jStrD]
            rw [decide_eq_false (by decide : ¬strLower "" = "inbound")]
            simp
          | some dj =>
            rw [hdir] at hwd
            cases dj with
            | str sd =>
              by_cases hd : strLower sd = "inbound"
              · cases hacc : List.lookup "access" rpf with
                | none =>
                  have hstep : checkRules (Json.obj fs :: rest) = checkRules rest := by
                    simp only [checkRules, pyGetAttr, hrp, Option.getD_some,
                      Option.getD_none, pyLower, hdir, hacc]
                    rw [if_pos hd, if_neg (by decide : ¬strLower "" = "allow")]
                  rw [hstep, ihr, List.any_cons, hro, hprops, hdir, hacc]
                  simp only [jStrD]
                  rw [decide_eq_false (by decide : ¬strLower "" = "allow")]
                  simp
                | some aj =>
                  rw [hacc] at hwa
                  cases aj with
                  | str sa =>
                    by_cases ha : strLower sa = "allow"
                    · cases hsp : List.lookup "sourceAddressPrefix" rpf with
                      | none =>
                        have hstep : checkRules (Json.obj fs :: rest) =
                            checkRules rest := by
                          simp only [checkRules, pyGetAttr, hrp, Option.getD_some,
                            Option.getD_none, pyLower, hdir, hacc, hsp]
                          rw [if_pos hd, if_pos ha,
                            if_neg (by decide : ¬strLower "" ∈ internetSources)]
                        rw [hstep, ihr, List.any_cons, hro, hprops, hdir, hacc, hsp]
                        simp only [jStrD]
                        rw [decide_eq_false
                          (by decide : ¬strLower "" ∈ internetSources)]
                        simp
                      | some sj =>
                        rw [hsp] at hws
                        cases sj with
                        | str ss =>
                          by_cases hs : strLower ss ∈ internetSources
                          · have hstep : checkRules (Json.obj fs :: rest) =
                                .ok true := by
                              simp only [checkRules, pyGetAttr, hrp,
                                Option.getD_some, pyLower, hdir, hacc, hsp]
                              rw [if_pos hd, if_pos ha, if_pos hs]
                            rw [hstep, List.any_cons, hro, hprops, hdir, hacc, hsp]
                            simp only [jStrD]
                            rw [decide_eq_true hd, decide_eq_true ha,
                              decide_eq_true hs]
                            simp
                          · have hstep : checkRules (Json.obj fs :: rest) =
                                checkRules rest := by
                              simp only [checkRules, pyGetAttr, hrp,
                                Option.getD_some, pyLower, hdir, hacc, hsp]
                              rw [if_pos hd, if_pos ha, if_neg hs]
                            rw [hstep, ihr, List.any_cons, hro, hprops, hdir,
                              hacc, hsp]
                            simp only [jStrD]
                            rw [decide_eq_false hs]
                            simp
                        | null => simp [strOrAbsent] at hws
                        | bool b => simp [strOrAbsent] at hws
                        | num l => simp [strOrAbsent] at hws
                        | arr xs => simp [strOrAbsent] at hws
                        | obj ofs => simp [strOrAbsent] at hws
                    · have hstep : checkRules (Json.obj fs :: rest) =
                          checkRules rest := by
                        simp only [checkRules, pyGetAttr, hrp, Option.getD_some,
                          pyLower, hdir, hacc]
                        rw [if_pos hd, if_neg ha]
                      rw [hstep, ihr, List.any_cons, hro, hprops, hdir, hacc]
                      simp only [jStrD]
                      rw [decide_eq_false ha]
                      simp
                  | null => simp [strOrAbsent] at hwa
                  | bool b => simp [strOrAbsent] at hwa
                  | num l => simp [strOrAbsent] at hwa
                  | arr xs => simp [strOrAbsent] at hwa
                  | obj ofs => simp [strOrAbsent] at hwa
              · have hstep : checkRules (Json.obj fs :: rest) = checkRules rest := by
                  simp only [checkRules, pyGetAttr, hrp, Option.getD_some,
                    pyLower, hdir]
                  rw [if_neg hd]
                rw [hstep, ihr, List.any_cons, hro, hprops, hdir]
                simp only [jStrD]
                rw [decide_eq_false hd]
                simp
            | null => simp [strOrAbsent] at hwd
            | bool b => simp [strOrAbsent] at hwd
            | num l => simp [strOrAbsent] at hwd
            | arr xs => simp [strOrAbsent] at hwd
            | obj ofs => simp [strOrAbsent] at hwd
        | null => simp [propsWF] at hw
        | bool b => simp [propsWF] at hw
        | num l => simp [propsWF] at hw
        | str s => simp [propsWF] at hw
        | arr xs => simp [propsWF] at hw

/-- On a row whose `type` lowercases to the NSG type and whose parsed
`properties` carries well-formed rules, the exposure check returns exactly
"some rule opens to the Internet". -/
theorem rowExposed_nsg {row : Row} {pf : List (String × Json)}
    {rules : List Json}
    (htype : strLower (rowGetD row "type" "") = nsgTypeName)
    (hp : parseJson (rowGetD row "properties" "\x7b\x7d") = some (Json.obj pf))
    (hrules : (List.lookup "securityRules" pf).getD (Json.arr []) = Json.arr rules)
    (hwf : ∀ rule ∈ rules, ruleWF rule = true) :
    rowExposed row = .ok (rules.any ruleOpensInternet) := by
  unfold rowExposed
  rw [hp]
  show (if strLower (rowGetD row "type" "") = nsgTypeName then
      catchAttrErr (nsgCheck (Json.obj pf))
    else if strLower (rowGetD row "type" "") = storageTypeName then
      catchAttrErr (storageCheck (Json.obj pf))
    else Except.ok false) = Except.ok (rules.any ruleOpensInternet)
  rw [if_pos htype]
  unfold nsgCheck
  simp only [pyGetAttr, hrules, pyIterate]
  rw [checkRules_wf rules hwf]
  rfl

/-! ## Claims -/

/-- C5 counterexample: the claim says that for every input row with
unparseable `properties` the build returns a graph; in `exC5` the first
row's `properties` (`"oops"`) is unparseable, yet the build aborts, because
the second row's `securityRules` is the number 0 and iterating it raises an
uncaught `TypeError`. -/
theorem c5_counterexample :
    parseJson "oops" = none ∧
      build_graph_from_csv exC5 = .error BuildErr.typeErr :=
  ⟨rfl, rfl⟩

/-- C5 (amended): a row whose `properties` value does not parse is itself
skipped by the exposure detector: its check returns not-exposed without
raising, and processing it leaves the graph and the Internet-node flag
unchanged.  (The build can still abort on account of a different row.) -/
theorem c5_parse_skip (row : Row)
    (h : parseJson (rowGetD row "properties" "\x7b\x7d") = none) :
    rowExposed row = .ok false ∧ ∀ acc, expStep acc row = .ok acc :=
  ⟨rowExposed_parse_none h,
   fun acc => expStep_not_exposed (rowExposed_parse_none h) acc⟩

/-- Witness for `c5_parse_skip` at a concrete unparseable row. -/
theorem c5_parse_skip_witness :
    parseJson (rowGetD rowC5W "properties" "\x7b\x7d") = none ∧
      rowExposed rowC5W = .ok false ∧
      expStep (⟨[], []⟩, false) rowC5W = .ok (⟨[], []⟩, false) :=
  ⟨rfl, (c5_parse_skip rowC5W rfl).1, (c5_parse_skip rowC5W rfl).2 _⟩

/-- C6: the claim says the build fails only when the `id` or `name` column
is missing.  `exC6` has both columns, yet the build aborts: the NSG row's
`securityRules` is the number 0, `for rule in rules` raises `TypeError`,
and the handler `except (json.JSONDecodeError, AttributeError)` does not
catch it — contradicting the spec's propagation policy (row-local failures
never abort the build). -/
theorem c6_typeerror_abort :
    ("id" ∈ exC6.columns ∧ "name" ∈ exC6.columns) ∧
      build_graph_from_csv exC6 = .error BuildErr.typeErr :=
  ⟨⟨by decide, by decide⟩, rfl⟩

/-- C8: a self-loop can only be produced, for a row, by a candidate id
different from the row's own id; hence when no other id of the identity
index resolves to the row's name, the reference-inference step adds no
self-loop for that row — even if the row's own id occurs in its own
haystack. -/
theorem c8_no_self_loop (df : Frame) (r : Row)
    (h : ∀ p ∈ idToName df, p.2 = rowGetD r "name" "" → p.1 = rowGetD r "id" "") :
    (rowGetD r "name" "", rowGetD r "name" "") ∉
      rowRefPairs (idToName df) (candidateIds df) (searchColumnsOf df.columns) r := by
  intro hmem
  obtain ⟨hsrc, hs1, hs2, cid, hcand, hne, hsub, hlk⟩ := rowRefPairs_shape hmem
  exact hne (h (cid, rowGetD r "name" "") (mem_of_lookup_eq_some hlk) rfl)

/-- Witness for `c8_no_self_loop`: the row's own id `qqq7` occurs inside its
own searched `properties` text, and no self-loop pair is produced. -/
theorem c8_no_self_loop_witness :
    strContains (hayOf (searchColumnsOf exC8W.columns) rowC8W)
        (rowGetD rowC8W "id" "") = true ∧
      ("A", "A") ∉ rowRefPairs (idToName exC8W) (candidateIds exC8W)
        (searchColumnsOf exC8W.columns) rowC8W :=
  ⟨by decide, fun hmem => c8_no_self_loop exC8W rowC8W (by decide) hmem⟩

/-- C9: the identity index maps each non-empty id to the name (and, in
`id_to_row`, to the full row) of the last row in input order declaring that
id; both index builds are total functions (no error). -/
theorem c9_last_write_wins (df : Frame) (i : String) (hi : i ≠ "") :
    List.lookup i (idToName df) =
      ((df.rows.filter (fun r => rowGetD r "id" "" == i)).getLast?).map
        (fun r => rowGetD r "name" "") ∧
    List.lookup i (idToRow df) =
      (df.rows.filter (fun r => rowGetD r "id" "" == i)).getLast? := by
  constructor
  · rw [idToName, idFold_lookup _ _ _ _ hi]
    cases (df.rows.filter (fun r => rowGetD r "id" "" == i)).getLast? <;> simp
  · rw [idToRow, idFold_lookup _ _ _ _ hi]
    cases (df.rows.filter (fun r => rowGetD r "id" "" == i)).getLast? <;> simp

/-- Witness for `c9_last_write_wins` on two rows sharing id `dup`. -/
theorem c9_last_write_wins_witness :
    List.lookup "dup" (idToName exC9W) = some "second" ∧
      List.lookup "dup" (idToRow exC9W) = some rowC9Second :=
  ⟨((c9_last_write_wins exC9W "dup" (by decide)).1).trans rfl,
   ((c9_last_write_wins exC9W "dup" (by decide)).2).trans rfl⟩

/-- C1 counterexample: the claim's example rule entry
`\x7bdirection: "Inbound", access: "Allow", sourceAddressPrefix: "*"\x7d` is
literally present (flat, not nested under a `properties` key) in `exC1`'s
parsed `securityRules`, and the claim predicts an Internet→nsg1 edge; the
build succeeds with an empty edge set, because the script reads the three
fields from `rule.get('properties', \x7b\x7d)`, which here is empty. -/
theorem c1_counterexample :
    parseJson (rowGetD exC1.rows.headI "properties" "\x7b\x7d") =
      some (Json.obj [("securityRules", Json.arr
        [Json.obj [("direction", Json.str "Inbound"),
          ("access", Json.str "Allow"),
          ("sourceAddressPrefix", Json.str "*")]])]) ∧
      build_graph_from_csv exC1 = .ok gC1 ∧ gC1.edges = [] :=
  ⟨rfl, rfl, rfl⟩

/-- C1 (amended): for an NSG-typed row whose parsed `properties` carries
well-formed security rules, the build adds the Internet edge to that row's
name iff some entry of `securityRules` has, under its `properties`
sub-object, inbound direction, allowed access, and an Internet-like source
address prefix (case-insensitively; the script short-circuits on the first
match).  The uniqueness hypothesis pins the edge to this row; the
no-row-named-Internet hypothesis rules out reference edges from a node
called Internet. -/
theorem c1_nsg_exposure (df : Frame) (g : Graph) (row : Row)
    (pf : List (String × Json)) (rules : List Json)
    (hok : build_graph_from_csv df = .ok g)
    (hrow : row ∈ df.rows)
    (hno : ∀ r ∈ df.rows, rowGetD r "name" "" ≠ "Internet")
    (htype : strLower (rowGetD row "type" "") = nsgTypeName)
    (hp : parseJson (rowGetD row "properties" "\x7b\x7d") = some (Json.obj pf))
    (hrules : (List.lookup "securityRules" pf).getD (Json.arr []) = Json.arr rules)
    (hwf : ∀ rule ∈ rules, ruleWF rule = true)
    (huniq : ∀ r ∈ df.rows, rowGetD r "name" "" = rowGetD row "name" "" → r = row) :
    (("Internet", rowGetD row "name" "") ∈ g.edges ↔
      rules.any ruleOpensInternet = true) := by
  rw [build_internet_edge_iff hok hno]
  constructor
  · rintro ⟨r, hr, hname, hexp⟩
    have heq := huniq r hr hname
    subst heq
    rw [rowExposed_nsg htype hp hrules hwf] at hexp
    exact Except.ok.inj hexp
  · intro hany
    refine ⟨row, hrow, rfl, ?_⟩
    rw [rowExposed_nsg htype hp hrules hwf, hany]

/-- Witness for `c1_nsg_exposure` at the nested-rule NSG frame `exC1W`. -/
theorem c1_nsg_exposure_witness :
    build_graph_from_csv exC1W = .ok gC1W ∧
      [ruleC1W].any ruleOpensInternet = true ∧
      ("Internet", "nsg1") ∈ gC1W.edges := by
  refine ⟨rfl, by decide, ?_⟩
  have h := c1_nsg_exposure exC1W gC1W rowC1W pfC1W [ruleC1W] rfl (by decide)
    (by decide) rfl rfl rfl (by decide) (by decide)
  exact h.mpr (by decide)

/-- C4: for a storage-account-typed row whose `properties` parses to `p`,
the build adds the Internet edge to that row's name iff
`p.networkAcls.defaultAction` is a string that lowercases to `"allow"`
(`storageOpen`); in particular `"Deny"` yields no edge.  Hypotheses as in
`c1_nsg_exposure`. -/
theorem c4_storage_exposure (df : Frame) (g : Graph) (row : Row) (p : Json)
    (hok : build_graph_from_csv df = .ok g)
    (hrow : row ∈ df.rows)
    (hno : ∀ r ∈ df.rows, rowGetD r "name" "" ≠ "Internet")
    (htype : strLower (rowGetD row "type" "") = storageTypeName)
    (hp : parseJson (rowGetD row "properties" "\x7b\x7d") = some p)
    (huniq : ∀ r ∈ df.rows, rowGetD r "name" "" = rowGetD row "name" "" → r = row) :
    (("Internet", rowGetD row "name" "") ∈ g.edges ↔ storageOpen p = true) := by
  have hval : storageAllowsInternet row = storageOpen p := by
    unfold storageAllowsInternet
    rw [hp]
  rw [build_internet_edge_iff hok hno]
  constructor
  · rintro ⟨r, hr, hname, hexp⟩
    have heq := huniq r hr hname
    subst heq
    rw [rowExposed_storage htype] at hexp
    rw [← hval]
    exact Except.ok.inj hexp
  · intro hopen
    refine ⟨row, hrow, rfl, ?_⟩
    rw [rowExposed_storage htype, hval, hopen]

/-- Witness for `c4_storage_exposure` at the storage frame `exC4W`
(mixed-case `type`, `defaultAction: "Allow"`). -/
theorem c4_storage_exposure_witness :
    build_graph_from_csv exC4W = .ok gC4W ∧
      storageOpen pC4W = true ∧
      ("Internet", "acct1") ∈ gC4W.edges := by
  refine ⟨rfl, by decide, ?_⟩
  have h := c4_storage_exposure exC4W gC4W rowC4W pC4W rfl (by decide) (by decide)
    rfl rfl (by decide)
  exact h.mpr (by decide)

/-- C7: node keys are unique by construction, so at most one node named
`"Internet"` exists in any successful build; and when no row is itself
named Internet and some row is exposed, the synthetic Internet node exists
with exactly the attributes of line 128 (`type="Internet"`, group tag,
size hint) — the lazy-creation flag makes the creation happen once. -/
theorem c7_single_internet (df : Frame) (g : Graph)
    (hok : build_graph_from_csv df = .ok g) :
    (g.nodes.filter (fun p => p.1 == "Internet")).length ≤ 1 ∧
      ((∀ r ∈ df.rows, rowGetD r "name" "" ≠ "Internet") →
        (∃ r ∈ df.rows, rowExposed r = .ok true) →
        g.lookupNode "Internet" = some internetAttrs) := by
  obtain ⟨hcols, fl, hf⟩ := build_ok_elim hok
  have hn0 : (⟨[], []⟩ : Graph).keys.Nodup := by simp [Graph.keys]
  have hn1 : (nodesGraph df).keys.Nodup := nodesFold_nodup _ _ _ hn0
  have hn2 : (refGraph df).keys.Nodup := nodup_keys_refFold _ _ hn1
  have hn3 : g.keys.Nodup := expFold_nodup hf hn2
  constructor
  · rw [length_filter_key g.nodes "Internet" hn3]
    by_cases h : (List.lookup "Internet" g.nodes).isSome <;> simp [h]
  · intro hno ⟨r, hr, hexp⟩
    have hnotmem : "Internet" ∉ (refGraph df).keys := by
      intro hmem
      obtain ⟨r', hr', he, _⟩ := keys_refGraph_names hmem
      exact hno r' hr' he
    have hnone : (refGraph df).lookupNode "Internet" = none :=
      lookup_eq_none_of_not_mem_keys hnotmem
    obtain ⟨c0, c1, c2⟩ := expFold_internet hf (fun _ => hnone) (by simp)
    exact c1 (c2.2 (Or.inr ⟨r, hr, hexp⟩))

/-- Witness for `c7_single_internet` on a frame with two exposed storage
rows. -/
theorem c7_single_internet_witness :
    build_graph_from_csv exC7W = .ok gC7W ∧
      (gC7W.nodes.filter (fun p => p.1 == "Internet")).length ≤ 1 ∧
      gC7W.lookupNode "Internet" = some internetAttrs :=
  ⟨rfl, (c7_single_internet exC7W gC7W rfl).1,
   (c7_single_internet exC7W gC7W rfl).2 (by decide) ⟨rowC7a, by decide, rfl⟩⟩

/-- C2 counterexample: in `exC2` the last row named `A` has an empty `tags`
cell, so its non-empty fields are only `id` and `name`; yet the final node
`A` keeps `tags = "t"` from the earlier row, because `G.add_node` merges
attribute dicts instead of replacing them.  The claim's "attributes equal
exactly the non-empty fields of the last such row" is therefore false. -/
theorem c2_counterexample :
    build_graph_from_csv exC2 = .ok gC2 ∧
      exC2.rows.getLast? = some rowC2Last ∧
      rowAttrs exC2.columns rowC2Last = [("id", AVal.s "i2"), ("name", AVal.s "A")] ∧
      gC2.lookupNode "A" =
        some [("id", AVal.s "i2"), ("name", AVal.s "A"), ("tags", AVal.s "t")] ∧
      gC2.lookupNode "A" ≠ some (rowAttrs exC2.columns rowC2Last) :=
  ⟨rfl, rfl, rfl, rfl, by decide⟩

/-- C2 (amended): every non-empty row name (other than the synthetic
Internet name) keys exactly one node in a successful build, and that node's
attribute dict is the key-wise merge, in input order, of the non-empty
fields of all rows bearing the name: later rows overwrite earlier values at
common keys, but a field that is empty in a later row keeps the earlier
row's value. -/
theorem c2_node_attrs (df : Frame) (g : Graph) (nm : String)
    (hok : build_graph_from_csv df = .ok g)
    (hex : ∃ r ∈ df.rows, rowGetD r "name" "" = nm)
    (hnm : nm ≠ "") (hni : nm ≠ "Internet") :
    (g.nodes.filter (fun p => p.1 == nm)).length = 1 ∧
      g.lookupNode nm = some (mergedAttrs df nm) := by
  obtain ⟨hcols, fl, hf⟩ := build_ok_elim hok
  have hfil : ¬(df.rows.filter (fun r => rowGetD r "name" "" == nm)).isEmpty := by
    obtain ⟨r, hr, he⟩ := hex
    have hmem : r ∈ df.rows.filter (fun r => rowGetD r "name" "" == nm) :=
      List.mem_filter.2 ⟨hr, by simp [he]⟩
    intro h0
    rw [List.isEmpty_iff] at h0
    rw [h0] at hmem
    cases hmem
  have h1 : (nodesGraph df).lookupNode nm = some (mergedAttrs df nm) := by
    unfold nodesGraph
    rw [nodesFold_lookup df.columns df.rows _ nm hnm, if_neg hfil]
    rfl
  have h2 : (refGraph df).lookupNode nm = some (mergedAttrs df nm) := by
    unfold refGraph
    exact lookupNode_refFold h1
  have h3 : g.lookupNode nm = some (mergedAttrs df nm) :=
    expFold_ok_lookup hf hni h2
  refine ⟨?_, h3⟩
  have hn0 : (⟨[], []⟩ : Graph).keys.Nodup := by simp [Graph.keys]
  have hn1 : (nodesGraph df).keys.Nodup := nodesFold_nodup _ _ _ hn0
  have hn2 : (refGraph df).keys.Nodup := nodup_keys_refFold _ _ hn1
  have hn3 : g.keys.Nodup := expFold_nodup hf hn2
  rw [length_filter_key g.nodes nm hn3]
  have hsome : (List.lookup nm g.nodes).isSome := by
    show (g.lookupNode nm).isSome
    rw [h3]
    rfl
  rw [if_pos hsome]

/-- Witness for `c2_node_attrs` on the duplicate-name frame. -/
theorem c2_node_attrs_witness :
    build_graph_from_csv exC2W = .ok gC2W ∧
      mergedAttrs exC2W "A" =
        [("id", AVal.s "i2"), ("name", AVal.s "A"), ("tags", AVal.s "t")] ∧
      (gC2W.nodes.filter (fun p => p.1 == "A")).length = 1 ∧
      gC2W.lookupNode "A" = some (mergedAttrs exC2W "A") := by
  have h := c2_node_attrs exC2W gC2W "A" rfl ⟨rowC2Last, by decide, rfl⟩
    (by decide) (by decide)
  exact ⟨rfl, rfl, h.1, h.2⟩

/-- C3 counterexample: `exC3`'s only row has an empty name but is an
exposed NSG, and the exposure loop (lines 98–130) never checks the name, so
`G.add_edge("Internet", "")` inserts a node keyed by the empty string. -/
theorem c3_counterexample :
    rowGetD exC3.rows.headI "name" "" = "" ∧
      build_graph_from_csv exC3 = .ok gC3 ∧ "" ∈ gC3.keys :=
  ⟨rfl, rfl, by decide⟩

/-- C3 (amended): empty-name rows contribute no node through node creation
or reference-edge insertion; as long as no *exposed* row has an empty name,
every node of a successful build has a non-empty name.  (An exposed
empty-name row does add an empty-named node via its exposure edge.) -/
theorem c3_nonempty_names (df : Frame) (g : Graph)
    (hok : build_graph_from_csv df = .ok g)
    (hexp : ∀ r ∈ df.rows, rowExposed r = .ok true → rowGetD r "name" "" ≠ "") :
    ∀ nm ∈ g.keys, nm ≠ "" := by
  intro nm hmem
  obtain ⟨hcols, fl, hf⟩ := build_ok_elim hok
  rcases expFold_keys_mem hf hmem with h1 | h1 | ⟨r, hr, hx, he⟩
  · obtain ⟨r, hr, he, hne⟩ := keys_refGraph_names h1
    exact hne
  · subst h1
    decide
  · subst he
    exact hexp r hr hx

/-- Witness for `c3_nonempty_names`: a frame with an empty-name row that is
not exposed; no empty-named node appears. -/
theorem c3_nonempty_names_witness :
    build_graph_from_csv exC3W = .ok gC3W ∧
      (∀ r ∈ exC3W.rows, rowExposed r = .ok true → rowGetD r "name" "" ≠ "") ∧
      "" ∉ gC3W.keys :=
  ⟨rfl, by decide,
   fun hmem => c3_nonempty_names exC3W gC3W rfl (by decide) "" hmem rfl⟩

/-- C10: in the two-resource scenario (distinct non-empty ids and names,
the identity index resolving `idA ↦ A` and `idB ↦ B`, `B`'s row uniquely
owning its name, only `idA` resolving to name `A`), if `A`'s `properties`
text contains `idB` as a literal substring then the final graph has the
edge `A→B`; and it has `B→A` only if `B`'s searched text (its concatenated
haystack) contains `idA` as a literal substring. -/
theorem c10_reference_edges (df : Frame) (g : Graph) (rA rB : Row)
    (idA idB nmA nmB : String)
    (hok : build_graph_from_csv df = .ok g)
    (hA : rA ∈ df.rows) (hB : rB ∈ df.rows)
    (hidA : rowGetD rA "id" "" = idA) (hidB : rowGetD rB "id" "" = idB)
    (hnmA : rowGetD rA "name" "" = nmA) (hnmB : rowGetD rB "name" "" = nmB)
    (hnmA0 : nmA ≠ "") (hnmB0 : nmB ≠ "")
    (hidne : idA ≠ idB) (hnamene : nmA ≠ nmB)
    (hlkA : List.lookup idA (idToName df) = some nmA)
    (hlkB : List.lookup idB (idToName df) = some nmB)
    (honlyA : ∀ p ∈ idToName df, p.2 = nmA → p.1 = idA)
    (huniqB : ∀ r ∈ df.rows, rowGetD r "name" "" = nmB → r = rB)
    (hpcol : "properties" ∈ df.columns)
    (hBint : nmB ≠ "Internet")
    (hsub : strContains (rowGetD rA "properties" "") idB = true) :
    ((nmA, nmB) ∈ g.edges) ∧
      ((nmB, nmA) ∈ g.edges →
        strContains (hayOf (searchColumnsOf df.columns) rB) idA = true) := by
  obtain ⟨hcols, fl, hf⟩ := build_ok_elim hok
  have hps : "properties" ∈ searchColumnsOf df.columns := by
    unfold searchColumnsOf
    have hmem : "properties" ∈ df.columns.filter
        (fun c => c ∈ ["properties", "tags", "identity", "managedBy",
          "resourceGroup", "type"]) :=
      List.mem_filter.2 ⟨hpcol, by decide⟩
    rw [if_neg (List.ne_nil_of_mem hmem)]
    exact hmem
  constructor
  · -- the A→B edge is produced while processing row A
    have hhay : strContains (hayOf (searchColumnsOf df.columns) rA) idB = true := by
      unfold hayOf
      exact strContains_joinSep
        (List.mem_map.2 ⟨"properties", hps, rfl⟩) hsub
    have hcand : idB ∈ candidateIds df := mem_keys_of_lookup_eq_some hlkB
    have hpair : (rowGetD rA "name" "", nmB) ∈
        rowRefPairs (idToName df) (candidateIds df)
          (searchColumnsOf df.columns) rA :=
      mem_rowRefPairs hcand (by rw [hidA]; exact fun he => hidne he.symm)
        hhay hlkB hnmB0 (by rw [hnmA]; exact hnmA0)
    rw [hnmA] at hpair
    have href : (nmA, nmB) ∈ (refGraph df).edges := by
      unfold refGraph
      exact mem_edges_refFold.2 (Or.inr ⟨rA, hA, hpair⟩)
    exact (expFold_ok_edges hf _).2 (Or.inl href)
  · -- a B→A edge can only come from row B's reference pairs
    intro hmem
    rcases (expFold_ok_edges hf _).1 hmem with h1 | ⟨r, hr, hx, he⟩
    · unfold refGraph at h1
      rcases mem_edges_refFold.1 h1 with h2 | ⟨r, hr, hp⟩
      · unfold nodesGraph at h2
        rw [nodesFold_edges] at h2
        cases h2
      · obtain ⟨hsrc, hs1, hs2, cid, hcandc, hnec, hsubc, hlkc⟩ :=
          rowRefPairs_shape hp
        have hrB : r = rB := huniqB r hr hsrc.symm
        subst hrB
        have hcidA : cid = idA :=
          honlyA (cid, nmA) (mem_of_lookup_eq_some hlkc) rfl
        subst hcidA
        exact hsubc
    · cases he
      exact absurd rfl hBint

/-- Witness for `c10_reference_edges`: `A`'s properties text `x bbb2 y`
contains `B`'s id; the build yields the edge `A→B` and no edge `B→A`. -/
theorem c10_reference_edges_witness :
    build_graph_from_csv exC10W = .ok gC10W ∧
      ("A", "B") ∈ gC10W.edges ∧ ("B", "A") ∉ gC10W.edges :=
  ⟨rfl,
   (c10_reference_edges exC10W gC10W rowC10A rowC10B "aaa1" "bbb2" "A" "B"
     rfl (by decide) (by decide) rfl rfl rfl rfl (by decide) (by decide)
     (by decide) (by decide) rfl rfl (by decide) (by decide) (by decide)
     (by decide) (by decide)).1,
   by decide⟩

end AzureGraph
